import Mathlib

/-!
Verification of the TRACE provenance library (TypeScript sources in
`src/src/index.ts` and the metadata-embedding module reproduced in
`src/README.md`, lines 427-841) against its natural-language specification.

Modelling conventions:
* Node `Buffer`s are `List Nat` of byte values; `subarray` is `drop`/`take`
  (both clamp exactly like the JS method for in-range non-negative indices,
  which are the only ones the code produces).
* Out-of-range `readUInt32BE`/`readUInt64BE` would throw in Node; every call
  reached by a theorem below is guarded in the source, and the model reads
  with `List.getD _ _ 0`.  `Number(readBigUInt64BE(...))` is modelled as the
  exact natural number (exact in JS below 2^53).
* Platform builtins (UTF-8 codec, base64 codec, `JSON.parse`/`JSON.stringify`
  of the two-field envelope, Ed25519 key parsing and verification, SHA-256)
  are collaborator interfaces: they appear as explicit function parameters,
  and theorems assume only stated, satisfiable facts about them.
* Thrown exceptions are modelled with `Option`/fall-through values at the
  exact program points where the source throws or catches.
-/

/-- Byte strings: a Node `Buffer` as its list of byte values. -/
abbrev Bytes := List Nat

/-- Model of `buffer.subarray(a, b)` for the non-negative indices the code
uses: clamps to the buffer length, empty when `b ≤ a`. -/
def subarrayM (buf : Bytes) (a b : Nat) : Bytes :=
  (buf.drop a).take (b - a)

/-- Model of `buffer.readUInt32BE(offset)` (big-endian); all uses reached by
the theorems are bounds-guarded in the source. -/
def readUInt32BE (buf : Bytes) (off : Nat) : Nat :=
  buf.getD off 0 * 2 ^ 24 + buf.getD (off + 1) 0 * 2 ^ 16 +
    buf.getD (off + 2) 0 * 2 ^ 8 + buf.getD (off + 3) 0

/-- Model of `Number(buffer.readBigUInt64BE(offset))` (big-endian). -/
def readUInt64BE (buf : Bytes) (off : Nat) : Nat :=
  buf.getD off 0 * 2 ^ 56 + buf.getD (off + 1) 0 * 2 ^ 48 +
    buf.getD (off + 2) 0 * 2 ^ 40 + buf.getD (off + 3) 0 * 2 ^ 32 +
    buf.getD (off + 4) 0 * 2 ^ 24 + buf.getD (off + 5) 0 * 2 ^ 16 +
    buf.getD (off + 6) 0 * 2 ^ 8 + buf.getD (off + 7) 0

/-- Model of `buffer.writeUInt32BE(n, 0)` as the four big-endian bytes.
(Node throws for `n ≥ 2^32`; all sizes produced in the theorems are small.) -/
def natTo4BE (n : Nat) : Bytes :=
  [n / 2 ^ 24 % 256, n / 2 ^ 16 % 256, n / 2 ^ 8 % 256, n % 256]

/-- JSON values as produced by `JSON.parse`: the data the `canonicalJSON`
function of `src/src/index.ts` (lines 420-438) operates on.  A JS object is
its key/value list in insertion order. -/
inductive JSON where
  | null : JSON
  | bool : Bool → JSON
  | num : Int → JSON
  | str : String → JSON
  | arr : List JSON → JSON
  | obj : List (String × JSON) → JSON

/-- Lexicographic strict comparison of character lists by code point,
modelling the default JS string comparison used by `Array.prototype.sort`
(identical to UTF-16 code-unit order on the basic multilingual plane; all
manifest keys are ASCII). -/
def charListLt : List Char → List Char → Bool
  | [], [] => false
  | [], _ :: _ => true
  | _ :: _, [] => false
  | a :: as, b :: bs =>
    if a.toNat < b.toNat then true
    else if b.toNat < a.toNat then false
    else charListLt as bs

/-- Key order used by `Object.keys(o).sort()`: `a` precedes-or-equals `b`. -/
def keyLe (a b : String) : Bool :=
  ! charListLt b.data a.data

/-- Insertion into a `keyLe`-sorted list. -/
def insertSorted (k : String) : List String → List String
  | [] => [k]
  | x :: xs => if keyLe k x then k :: x :: xs else x :: insertSorted k xs

/-- Model of `Object.keys(o).sort()`: a sorted permutation of the key list.
(The ECMAScript sort result on strings is uniquely determined, so any
correct sorting algorithm is a faithful model.) -/
def sortStrings : List String → List String
  | [] => []
  | x :: xs => insertSorted x (sortStrings xs)

/-- Model of the JS member read `o[key]` for a key taken from
`Object.keys(o)`: the first binding of `key` (`JSON.null` stands for the
unreachable missing-key case). -/
def lookupVal (kvs : List (String × JSON)) (k : String) : JSON :=
  match kvs.find? (fun p => p.1 == k) with
  | some p => p.2
  | none => JSON.null

mutual

/-- Nesting depth of a JSON value, used as recursion fuel for `sortKeysF`. -/
def jdepth : JSON → Nat
  | .null => 0
  | .bool _ => 0
  | .num _ => 0
  | .str _ => 0
  | .arr xs => jdepthList xs + 1
  | .obj kvs => jdepthPairs kvs + 1

/-- Depth of a list of JSON values. -/
def jdepthList : List JSON → Nat
  | [] => 0
  | x :: xs => max (jdepth x) (jdepthList xs)

/-- Depth of a key/value list. -/
def jdepthPairs : List (String × JSON) → Nat
  | [] => 0
  | p :: ps => max (jdepth p.2) (jdepthPairs ps)

end

/-- The inner `sortKeys` of `canonicalJSON` (`src/src/index.ts` lines
113-126): scalars pass through, arrays map recursively in order, objects
are rebuilt by iterating `Object.keys(o).sort()` and reading `o[key]`.
The `fuel` argument makes the recursion structural; any fuel above the
value's depth gives the function the source computes
(`sortKeysF_stable`). -/
def sortKeysF : Nat → JSON → JSON
  | 0, j => j
  | fuel + 1, j =>
    match j with
    | .null => .null
    | .bool b => .bool b
    | .num n => .num n
    | .str s => .str s
    | .arr xs => .arr (xs.map (sortKeysF fuel))
    | .obj kvs =>
      .obj ((sortStrings (kvs.map Prod.fst)).map
        (fun k => (k, sortKeysF fuel (lookupVal kvs k))))

/-- Model of the JSON string escaping performed by `JSON.stringify`. -/
def escChar (c : Char) : String :=
  if c = '"' then "\\\""
  else if c = '\\' then "\\\\"
  else if c = Char.ofNat 8 then "\\b"
  else if c = Char.ofNat 9 then "\\t"
  else if c = Char.ofNat 10 then "\\n"
  else if c = Char.ofNat 12 then "\\f"
  else if c = Char.ofNat 13 then "\\r"
  else if c.toNat < 32 then
    "\\u00" ++ String.singleton (Nat.digitChar (c.toNat / 16)) ++
      String.singleton (Nat.digitChar (c.toNat % 16))
  else String.singleton c

/-- Escaped, quoted JSON string literal. -/
def escString (s : String) : String :=
  "\"" ++ String.join (s.data.map escChar) ++ "\""

mutual

/-- Model of `JSON.stringify` on parsed JSON values (no extraneous
whitespace, elements and members in list order). -/
def stringifyJSON : JSON → String
  | .null => "null"
  | .bool true => "true"
  | .bool false => "false"
  | .num n => toString n
  | .str s => escString s
  | .arr xs => "[" ++ stringifyList xs ++ "]"
  | .obj kvs => "\x7b" ++ stringifyPairs kvs ++ "\x7d"

/-- Comma-separated serialization of array elements. -/
def stringifyList : List JSON → String
  | [] => ""
  | [x] => stringifyJSON x
  | x :: y :: xs => stringifyJSON x ++ "," ++ stringifyList (y :: xs)

/-- Comma-separated serialization of object members. -/
def stringifyPairs : List (String × JSON) → String
  | [] => ""
  | [p] => escString p.1 ++ ":" ++ stringifyJSON p.2
  | p :: q :: ps =>
    escString p.1 ++ ":" ++ stringifyJSON p.2 ++ "," ++ stringifyPairs (q :: ps)

end

/-- Model of `canonicalJSON` (`src/src/index.ts` lines 420-438):
`JSON.stringify(sortKeys(obj))`. -/
def canonicalJSON (j : JSON) : String :=
  stringifyJSON (sortKeysF (jdepth j + 1) j)

/-- Decidable check that two JSON values have identical contents up to the
construction order of object keys: same scalars, arrays element-wise related
in order, objects with the same key multiset and related values under every
key.  `fuel` bounds the recursion; any sufficient fuel works. -/
def contentEqF : Nat → JSON → JSON → Bool
  | 0, _, _ => false
  | fuel + 1, a, b =>
    match a, b with
    | .null, .null => true
    | .bool x, .bool y => x == y
    | .num x, .num y => x == y
    | .str x, .str y => x == y
    | .arr xs, .arr ys =>
      xs.length == ys.length &&
        (xs.zip ys).all (fun p => contentEqF fuel p.1 p.2)
    | .obj ps, .obj qs =>
      ((ps.map Prod.fst ++ qs.map Prod.fst).all
        (fun k => (ps.map Prod.fst).count k == (qs.map Prod.fst).count k)) &&
        (ps.map Prod.fst).all
          (fun k => contentEqF fuel (lookupVal ps k) (lookupVal qs k))
    | _, _ => false

/-- Strings with equal character lists are equal. -/
theorem string_ext {a b : String} (h : a.data = b.data) : a = b := by
  cases a
  cases b
  exact congrArg String.mk h

/-- Asymmetry of `charListLt`. -/
theorem charListLt_asymm :
    ∀ {x y : List Char}, charListLt x y = true → charListLt y x = false := by
  intro x
  induction x with
  | nil =>
    intro y h
    cases y with
    | nil => simpa [charListLt] using h
    | cons b bs => simp [charListLt]
  | cons a as ih =>
    intro y h
    cases y with
    | nil => simp [charListLt] at h
    | cons b bs =>
      simp only [charListLt] at h ⊢
      by_cases hab : a.toNat < b.toNat
      · have : ¬ b.toNat < a.toNat := by omega
        simp [hab, this]
      · by_cases hba : b.toNat < a.toNat
        · simp [hab, hba] at h
        · simp [hab, hba] at h ⊢
          exact ih h

/-- Failing `charListLt` both ways forces equality of the lists. -/
theorem charListLt_eq_of_not_lt :
    ∀ {x y : List Char}, charListLt x y = false → charListLt y x = false → x = y := by
  intro x
  induction x with
  | nil =>
    intro y h _
    cases y with
    | nil => rfl
    | cons b bs => simp [charListLt] at h
  | cons a as ih =>
    intro y h h'
    cases y with
    | nil => simp [charListLt] at h'
    | cons b bs =>
      simp only [charListLt] at h h'
      by_cases hab : a.toNat < b.toNat
      · simp [hab] at h
      · by_cases hba : b.toNat < a.toNat
        · simp [hba, hab] at h'
        · simp [hab, hba] at h h'
          have hc : a = b := by
            have : a.toNat = b.toNat := by omega
            rw [← Char.ofNat_toNat a, ← Char.ofNat_toNat b, this]
          rw [hc, ih h h']

/-- Negated `charListLt` is transitive. -/
theorem charListLt_not_trans :
    ∀ {x y z : List Char}, charListLt x y = false → charListLt y z = false →
      charListLt x z = false := by
  intro x
  induction x with
  | nil =>
    intro y z h h'
    cases y with
    | nil =>
      cases z with
      | nil => rfl
      | cons c cs => simp [charListLt] at h'
    | cons b bs => simp [charListLt] at h
  | cons a as ih =>
    intro y z h h'
    cases y with
    | nil =>
      cases z with
      | nil => simp [charListLt]
      | cons c cs => simp [charListLt] at h'
    | cons b bs =>
      cases z with
      | nil => simp [charListLt]
      | cons c cs =>
        simp only [charListLt] at h h' ⊢
        by_cases hab : a.toNat < b.toNat
        · simp [hab] at h
        · by_cases hbc : b.toNat < c.toNat
          · simp [hbc] at h'
          · by_cases hac : a.toNat < c.toNat
            · omega
            · by_cases hca : c.toNat < a.toNat
              · simp [hac, hca]
              · have hba : ¬ b.toNat < a.toNat := by omega
                have hcb : ¬ c.toNat < b.toNat := by omega
                simp [hab, hba] at h
                simp [hbc, hcb] at h'
                simp [hac, hca]
                exact ih h h'

/-- Totality of `keyLe`. -/
theorem keyLe_total (a b : String) : keyLe a b = true ∨ keyLe b a = true := by
  unfold keyLe
  by_cases h : charListLt b.data a.data = true
  · right
    simp [charListLt_asymm h]
  · left
    simp at h
    simp [h]

/-- Transitivity of `keyLe`. -/
theorem keyLe_trans {a b c : String} (h : keyLe a b = true) (h' : keyLe b c = true) :
    keyLe a c = true := by
  unfold keyLe at h h' ⊢
  simp only [Bool.not_eq_true'] at h h' ⊢
  exact charListLt_not_trans h' h

/-- Antisymmetry of `keyLe`. -/
theorem keyLe_antisymm {a b : String} (h : keyLe a b = true) (h' : keyLe b a = true) :
    a = b := by
  unfold keyLe at h h'
  simp only [Bool.not_eq_true'] at h h'
  exact string_ext (charListLt_eq_of_not_lt h' h)

/-- Propositional form of `keyLe`. -/
def keyLeP (a b : String) : Prop := keyLe a b = true

instance : IsTrans String keyLeP := ⟨fun _ _ _ => keyLe_trans⟩

instance : IsAntisymm String keyLeP := ⟨fun _ _ => keyLe_antisymm⟩

/-- Insertion permutes: `insertSorted` adds exactly its element. -/
theorem insertSorted_perm (k : String) :
    ∀ l : List String, (insertSorted k l).Perm (k :: l) := by
  intro l
  induction l with
  | nil => simp [insertSorted]
  | cons x xs ih =>
    simp only [insertSorted]
    by_cases h : keyLe k x = true
    · simp [h]
    · simp only [h]
      simp only [Bool.false_eq_true, if_false]
      exact (ih.cons x).trans (List.Perm.swap k x xs)

/-- Sorting permutes: `sortStrings` keeps exactly the input strings. -/
theorem sortStrings_perm : ∀ l : List String, (sortStrings l).Perm l := by
  intro l
  induction l with
  | nil => simp [sortStrings]
  | cons x xs ih =>
    simpa [sortStrings] using (insertSorted_perm x (sortStrings xs)).trans (ih.cons x)

/-- Insertion preserves sortedness. -/
theorem insertSorted_sorted (k : String) :
    ∀ {l : List String}, l.Sorted keyLeP → (insertSorted k l).Sorted keyLeP := by
  intro l
  induction l with
  | nil =>
    intro _
    simp [insertSorted]
  | cons x xs ih =>
    intro hs
    rw [List.sorted_cons] at hs
    simp only [insertSorted]
    by_cases h : keyLe k x = true
    · simp only [h, if_true]
      rw [List.sorted_cons]
      refine ⟨?_, (List.sorted_cons).mpr hs⟩
      intro b hb
      rcases List.mem_cons.mp hb with hb | hb
      · exact hb ▸ h
      · exact keyLe_trans h (hs.1 b hb)
    · simp only [h]
      simp only [Bool.false_eq_true, if_false]
      rw [List.sorted_cons]
      refine ⟨?_, ih hs.2⟩
      intro b hb
      have hxk : keyLe x k = true := by
        rcases keyLe_total k x with h' | h'
        · exact absurd h' h
        · exact h'
      rcases List.mem_cons.mp ((insertSorted_perm k xs).mem_iff.mp hb) with hb | hb
      · exact hb ▸ hxk
      · exact hs.1 b hb

/-- Sortedness of `sortStrings`. -/
theorem sortStrings_sorted : ∀ l : List String, (sortStrings l).Sorted keyLeP := by
  intro l
  induction l with
  | nil => simp [sortStrings]
  | cons x xs ih => exact insertSorted_sorted x ih

/-- Permuted key lists sort identically: the determinism core of the
canonical encoder. -/
theorem sortStrings_eq_of_perm {l₁ l₂ : List String} (h : l₁.Perm l₂) :
    sortStrings l₁ = sortStrings l₂ :=
  List.eq_of_perm_of_sorted
    ((sortStrings_perm l₁).trans (h.trans (sortStrings_perm l₂).symm))
    (sortStrings_sorted l₁) (sortStrings_sorted l₂)

/-- Depth of a member value is bounded by the pair-list depth. -/
theorem jdepth_mem_pairs {p : String × JSON} :
    ∀ {ps : List (String × JSON)}, p ∈ ps → jdepth p.2 ≤ jdepthPairs ps := by
  intro ps
  induction ps with
  | nil => intro h; cases h
  | cons q qs ih =>
    intro h
    rcases List.mem_cons.mp h with h | h
    · subst h
      simp [jdepthPairs]
    · calc jdepth p.2 ≤ jdepthPairs qs := ih h
        _ ≤ jdepthPairs (q :: qs) := by simp [jdepthPairs]

/-- Depth of a looked-up value is bounded by the pair-list depth. -/
theorem jdepth_lookupVal (ps : List (String × JSON)) (k : String) :
    jdepth (lookupVal ps k) ≤ jdepthPairs ps := by
  unfold lookupVal
  cases hf : ps.find? (fun p => p.1 == k) with
  | none => simp [jdepth]
  | some p => exact jdepth_mem_pairs (List.mem_of_find?_eq_some hf)

/-- Depth of an array element is bounded by the list depth. -/
theorem jdepth_mem_list {x : JSON} :
    ∀ {xs : List JSON}, x ∈ xs → jdepth x ≤ jdepthList xs := by
  intro xs
  induction xs with
  | nil => intro h; cases h
  | cons y ys ih =>
    intro h
    rcases List.mem_cons.mp h with h | h
    · subst h
      simp [jdepthList]
    · calc jdepth x ≤ jdepthList ys := ih h
        _ ≤ jdepthList (y :: ys) := by simp [jdepthList]

/-- Equal-count key lists are permutations of each other. -/
theorem perm_of_count_check {A B : List String}
    (h : ∀ k ∈ A ++ B, A.count k = B.count k) : A.Perm B := by
  rw [List.perm_iff_count]
  intro a
  by_cases ha : a ∈ A ++ B
  · exact h a ha
  · rw [List.mem_append] at ha
    push_neg at ha
    rw [List.count_eq_zero.mpr ha.1, List.count_eq_zero.mpr ha.2]

/-- Core determinism lemma: content-equal values have the same `sortKeys`
image at any sufficient fuel. -/
theorem sortKeysF_eq_of_contentEqF :
    ∀ (cf : Nat) (a b : JSON) (fa fb : Nat), contentEqF cf a b = true →
      jdepth a < fa → jdepth b < fb → sortKeysF fa a = sortKeysF fb b := by
  intro cf
  induction cf with
  | zero =>
    intro a b fa fb h
    simp [contentEqF] at h
  | succ cf ih =>
    intro a b fa fb h ha hb
    obtain ⟨fa', rfl⟩ : ∃ fa', fa = fa' + 1 := ⟨fa - 1, by omega⟩
    obtain ⟨fb', rfl⟩ : ∃ fb', fb = fb' + 1 := ⟨fb - 1, by omega⟩
    cases a <;> cases b <;> simp only [contentEqF] at h <;>
      try exact Bool.noConfusion h
    case null.null => simp [sortKeysF]
    case bool.bool x y =>
      simp only [beq_iff_eq] at h
      subst h
      simp [sortKeysF]
    case num.num x y =>
      simp only [beq_iff_eq] at h
      subst h
      simp [sortKeysF]
    case str.str x y =>
      simp only [beq_iff_eq] at h
      subst h
      simp [sortKeysF]
    case arr.arr xs ys =>
      rw [Bool.and_eq_true] at h
      obtain ⟨hlen, hall⟩ := h
      simp only [beq_iff_eq] at hlen
      simp only [List.all_eq_true] at hall
      simp only [sortKeysF]
      have haux : ∀ (us vs : List JSON), us.length = vs.length →
          (∀ p ∈ us.zip vs, contentEqF cf p.1 p.2 = true) →
          (∀ x ∈ us, jdepth x < fa') → (∀ y ∈ vs, jdepth y < fb') →
          us.map (sortKeysF fa') = vs.map (sortKeysF fb') := by
        intro us
        induction us with
        | nil =>
          intro vs hl _ _ _
          cases vs with
          | nil => rfl
          | cons v vs' => simp at hl
        | cons u us' ihu =>
          intro vs hl hz hu hv
          cases vs with
          | nil => simp at hl
          | cons v vs' =>
            simp only [List.map_cons]
            have h1 : contentEqF cf u v = true := by
              have := hz (u, v) (by simp [List.zip_cons_cons])
              simpa using this
            rw [ih u v fa' fb' h1 (hu u (by simp)) (hv v (by simp))]
            congr 1
            refine ihu vs' (by simpa using hl) ?_ ?_ ?_
            · intro p hp
              exact hz p (by simp [List.zip_cons_cons, hp])
            · intro x hx
              exact hu x (by simp [hx])
            · intro y hy
              exact hv y (by simp [hy])
      congr 1
      refine haux xs ys hlen hall ?_ ?_
      · intro x hx
        have h1 := jdepth_mem_list hx
        simp only [jdepth] at ha
        omega
      · intro y hy
        have h1 := jdepth_mem_list hy
        simp only [jdepth] at hb
        omega
    case obj.obj ps qs =>
      rw [Bool.and_eq_true] at h
      obtain ⟨hcount, hall⟩ := h
      simp only [List.all_eq_true] at hcount hall
      have hperm : (ps.map Prod.fst).Perm (qs.map Prod.fst) := by
        refine perm_of_count_check ?_
        intro k hk
        have := hcount k hk
        simpa using this
      simp only [sortKeysF]
      rw [sortStrings_eq_of_perm hperm]
      congr 1
      refine List.map_congr_left ?_
      intro k hk
      have hkQ : k ∈ qs.map Prod.fst := (sortStrings_perm (qs.map Prod.fst)).mem_iff.mp hk
      have hkA : k ∈ ps.map Prod.fst := hperm.mem_iff.mpr hkQ
      have hrel : contentEqF cf (lookupVal ps k) (lookupVal qs k) = true := hall k hkA
      have hpa : jdepth (lookupVal ps k) < fa' := by
        have h1 := jdepth_lookupVal ps k
        simp only [jdepth] at ha
        omega
      have hqb : jdepth (lookupVal qs k) < fb' := by
        have h1 := jdepth_lookupVal qs k
        simp only [jdepth] at hb
        omega
      rw [ih (lookupVal ps k) (lookupVal qs k) fa' fb' hrel hpa hqb]

/-- String leaves are fixed by `sortKeysF` at every fuel. -/
theorem sortKeysF_str (fuel : Nat) (s : String) :
    sortKeysF fuel (JSON.str s) = JSON.str s := by
  cases fuel <;> simp [sortKeysF]

/-- Sample manifest-shaped object, keys constructed in one order. -/
def c3SampleA : JSON :=
  JSON.obj [("spec_version", JSON.str "0.1"),
            ("claims", JSON.arr [JSON.str "ai_generated"]),
            ("provider", JSON.obj [("id", JSON.str "p1"), ("name", JSON.str "Provider One")])]

/-- The same contents with every object's keys constructed in another order. -/
def c3SampleB : JSON :=
  JSON.obj [("provider", JSON.obj [("name", JSON.str "Provider One"), ("id", JSON.str "p1")]),
            ("spec_version", JSON.str "0.1"),
            ("claims", JSON.arr [JSON.str "ai_generated"])]

/-- C3: `canonicalJSON` is a pure, deterministic encoder: any two manifest
values with identical contents produce byte-identical output regardless of
key construction order (keys are rewritten in strict lexicographic order
recursively), arrays are never reordered (`sortKeys` maps them element-wise
in place), and an array of scalars such as `claims` is passed through
entirely unchanged. -/
theorem C3_canonical_encoder_deterministic :
    (∀ (fuel : Nat) (a b : JSON), contentEqF fuel a b = true →
      canonicalJSON a = canonicalJSON b) ∧
    (∀ (fuel : Nat) (xs : List JSON),
      sortKeysF (fuel + 1) (JSON.arr xs) = JSON.arr (xs.map (sortKeysF fuel))) ∧
    (∀ (fuel : Nat) (ss : List String),
      sortKeysF fuel (JSON.arr (ss.map JSON.str)) = JSON.arr (ss.map JSON.str)) := by
  refine ⟨?_, ?_, ?_⟩
  · intro fuel a b h
    unfold canonicalJSON
    rw [sortKeysF_eq_of_contentEqF fuel a b (jdepth a + 1) (jdepth b + 1) h
      (by omega) (by omega)]
  · intro fuel xs
    simp [sortKeysF]
  · intro fuel ss
    cases fuel with
    | zero => simp [sortKeysF]
    | succ fuel =>
      simp only [sortKeysF, List.map_map]
      congr 1
      refine List.map_congr_left ?_
      intro s _
      simp [Function.comp, sortKeysF_str]

/-- Witness for C3 at concrete inputs: the two construction orders of the
same manifest contents are content-equal and encode byte-identically. -/
theorem C3_canonical_encoder_deterministic_witness :
    contentEqF 3 c3SampleA c3SampleB = true ∧
    canonicalJSON c3SampleA = canonicalJSON c3SampleB :=
  ⟨by decide, C3_canonical_encoder_deterministic.1 3 c3SampleA c3SampleB (by decide)⟩

/-- Parsed box value (`Box` interface, `src/README.md` lines 602-607). -/
structure MP4Box where
  size : Nat
  type : String
  data : Bytes
  startOffset : Nat
deriving DecidableEq

/-- Byte encoding of a box-type tag (`Buffer.from(boxType, 'ascii')`; Node's
`ascii` encoding masks each char code to 7 bits). -/
def boxTypeBytes (t : String) : Bytes :=
  t.data.map (fun c => c.toNat % 128)

/-- Scan loop of `findAndParseBox` (`src/README.md` lines 612-658), made
structural on `fuel`; `findAndParseBox` runs it with fuel exceeding the
buffer length, which `findBoxAux_stable` shows is the loop's fixpoint.
Each iteration: stop when fewer than 9 bytes remain past `offset`; read the
32-bit size; on size 1 read the 64-bit size at `offset + 8` and advance the
header to 16 bytes (stopping if the buffer is shorter than `offset + 16`);
compare the 4 tag bytes after the header; on a match return the box with
payload running to `offset + size` (skipping 4 version/flags bytes for
`meta`); otherwise advance to `offset + size`, stopping on size 0. -/
def findBoxAux (buffer : Bytes) (boxType : String) : Nat → Nat → Option MP4Box
  | 0, _ => none
  | fuel + 1, offset =>
    if offset + 8 < buffer.length then
      let size₀ := readUInt32BE buffer offset
      let hdr : Option (Nat × Nat) :=
        if size₀ = 1 then
          if offset + 16 > buffer.length then none
          else some (readUInt64BE buffer (offset + 8), offset + 16)
        else some (size₀, offset + 4)
      match hdr with
      | none => none
      | some (size, off₂) =>
        if off₂ + 4 > buffer.length then none
        else if subarrayM buffer off₂ (off₂ + 4) = boxTypeBytes boxType then
          let dOff := if boxType = "meta" then 4 else 0
          some ⟨size, boxType, subarrayM buffer (off₂ + 4 + dOff) (offset + size), offset⟩
        else if size = 0 then none
        else findBoxAux buffer boxType fuel (offset + size)
    else none

/-- Model of `findAndParseBox(buffer, boxType, startOffset)`. -/
def findAndParseBox (buffer : Bytes) (boxType : String) (startOffset : Nat := 0) :
    Option MP4Box :=
  findBoxAux buffer boxType (buffer.length + 1) startOffset

/-- Vendor entry as produced by `extractUUIDBoxes`. -/
structure UUIDEntry where
  uuid : Bytes
  data : Bytes
deriving DecidableEq

/-- The fixed 16-byte TRACE vendor identifier (`src/README.md` lines
440-443): ASCII `TRACE-Prov-2024-`. -/
def TRACE_UUID : Bytes :=
  [0x54, 0x52, 0x41, 0x43, 0x45, 0x2d, 0x50, 0x72,
   0x6f, 0x76, 0x2d, 0x32, 0x30, 0x32, 0x34, 0x2d]

/-- Scan loop of `extractUUIDBoxes` (`src/README.md` lines 663-697), made
structural on `fuel`.  Faithful to the source, including the facts that the
overrun guard tests the pre-extension 32-bit size and that the `uuid` and
payload slices are taken relative to the post-header offset (`off₂ + 8` and
`off₂ + 24`), which is 4 bytes past where `createUUIDBox` writes them. -/
def extractUUIDBoxesAux (metaData : Bytes) : Nat → Nat → List UUIDEntry
  | 0, _ => []
  | fuel + 1, offset =>
    if offset + 8 < metaData.length then
      let size₀ := readUInt32BE metaData offset
      if size₀ = 0 ∨ size₀ > metaData.length - offset then []
      else
        let hdrLen := if size₀ = 1 then 16 else 4
        let size := if size₀ = 1 then readUInt64BE metaData (offset + 8) else size₀
        let off₂ := offset + hdrLen
        if off₂ + 4 > metaData.length then []
        else if subarrayM metaData off₂ (off₂ + 4) = boxTypeBytes "uuid" then
          if off₂ + 24 > metaData.length then []
          else
            let entry : UUIDEntry :=
              ⟨subarrayM metaData (off₂ + 8) (off₂ + 24),
               subarrayM metaData (off₂ + 24) (off₂ - hdrLen + size)⟩
            entry :: (if size = 0 then []
              else extractUUIDBoxesAux metaData fuel (off₂ - hdrLen + size))
        else if size = 0 then []
        else extractUUIDBoxesAux metaData fuel (off₂ - hdrLen + size)
    else []

/-- Model of `extractUUIDBoxes(metaData)`. -/
def extractUUIDBoxes (metaData : Bytes) : List UUIDEntry :=
  extractUUIDBoxesAux metaData (metaData.length + 1) 0

/-- Model of `createUUIDBox` (`src/README.md` lines 702-712):
`size(4) | "uuid"(4) | uuid(16) | data`. -/
def createUUIDBox (uuid data : Bytes) : Bytes :=
  natTo4BE (4 + 4 + 16 + data.length) ++ boxTypeBytes "uuid" ++ uuid ++ data

/-- Model of `createMetaBox` (`src/README.md` lines 717-731):
`size(4) | "meta"(4) | version+flags(4)=0 | concatenated uuid boxes`. -/
def createMetaBox (uuidBoxes : List UUIDEntry) : Bytes :=
  let metaData := (uuidBoxes.map (fun b => createUUIDBox b.uuid b.data)).flatten
  natTo4BE (4 + 4 + 4 + metaData.length) ++ boxTypeBytes "meta" ++
    natTo4BE 0 ++ metaData

/-- Model of `createBox` (`src/README.md` lines 736-745). -/
def createBox (type : String) (data : Bytes) : Bytes :=
  natTo4BE (4 + 4 + data.length) ++ boxTypeBytes type ++ data

/-- Model of `removeBoxFromBuffer` (`src/README.md` lines 750-758). -/
def removeBoxFromBuffer (buffer : Bytes) (boxType : String) : Bytes :=
  match findAndParseBox buffer boxType with
  | none => buffer
  | some box => buffer.take box.startOffset ++ buffer.drop (box.startOffset + box.size)

/-- Model of `insertBox` (`src/README.md` lines 763-765): append at end. -/
def insertBox (buffer box : Bytes) : Bytes :=
  buffer ++ box

/-- Model of `replaceBoxInFile` (`src/README.md` lines 770-778). -/
def replaceBoxInFile (fileBuffer : Bytes) (boxType : String) (newBox : Bytes) : Bytes :=
  match findAndParseBox fileBuffer boxType with
  | none => fileBuffer
  | some box =>
    fileBuffer.take box.startOffset ++ newBox ++
      fileBuffer.drop (box.startOffset + box.size)

/-- Model of `embedMetadataMP4` (`src/README.md` lines 457-500) at the byte
level: the argument is the file's contents, `metadataBuffer` is the UTF-8
encoding of `JSON.stringify({manifest, signature})`, and the result is the
written file; `none` models the thrown `Error` when `moov` is absent. -/
def embedMetadataMP4Bytes (fileBuffer metadataBuffer : Bytes) : Option Bytes :=
  match findAndParseBox fileBuffer "moov" with
  | none => none
  | some moovBox =>
    let newMetaBox :=
      match findAndParseBox moovBox.data "meta" with
      | none => createMetaBox [⟨TRACE_UUID, metadataBuffer⟩]
      | some existingMetaBox =>
        let uuidBoxes := extractUUIDBoxes existingMetaBox.data
        let otherUUIDBoxes := uuidBoxes.filter (fun b => ! (b.uuid == TRACE_UUID))
        createMetaBox (otherUUIDBoxes ++ [⟨TRACE_UUID, metadataBuffer⟩])
    let moovWithoutMeta := removeBoxFromBuffer moovBox.data "meta"
    let newMoovData := insertBox moovWithoutMeta newMetaBox
    let newMoovBox := createBox "moov" newMoovData
    some (replaceBoxInFile fileBuffer "moov" newMoovBox)

/-- File-system view of `embedMetadataMP4`: on the thrown error no
`writeFileSync` happens, so the asset keeps its previous contents. -/
def embedMetadataMP4FS (fileBuffer metadataBuffer : Bytes) : Bytes :=
  match embedMetadataMP4Bytes fileBuffer metadataBuffer with
  | none => fileBuffer
  | some newFile => newFile

/-- Model of `extractMetadataMP4` (`src/README.md` lines 505-539) at the
byte level: returns the raw payload of the TRACE `uuid` box (the JSON
envelope text before `JSON.parse`), or `none` when any lookup fails. -/
def extractMetadataMP4Bytes (fileBuffer : Bytes) : Option Bytes :=
  match findAndParseBox fileBuffer "moov" with
  | none => none
  | some moovBox =>
    match findAndParseBox moovBox.data "meta" with
    | none => none
    | some metaBox =>
      match (extractUUIDBoxes metaBox.data).find? (fun b => b.uuid == TRACE_UUID) with
      | none => none
      | some traceBox => some traceBox.data

/-- Minimal MP4 container: a top-level `moov` box holding one `free` box.
(The `moov` payload is non-empty so that the strict scan condition
`offset < buffer.length - 8` can reach it.) -/
def c1File : Bytes := createBox "moov" (createBox "free" [])

/-- UTF-8 bytes of `JSON.stringify({manifest: "m", signature: "s"})`. -/
def c1Payload : Bytes :=
  ("\x7b\"manifest\":\"m\",\"signature\":\"s\"\x7d").data.map Char.toNat

/-- The file produced by embedding `c1Payload` into `c1File`. -/
def c1Stamped : Bytes := (embedMetadataMP4Bytes c1File c1Payload).getD []

/-- C1 (code bug): embedding succeeds and writes the TRACE vendor UUID at
bytes 36-52 of the stamped file (offset 8 of the `uuid` box, as
`createUUIDBox` lays it out), yet extraction returns `null` instead of the
embedded pair, because `extractUUIDBoxes` slices the vendor identifier 4
bytes too far (at offset 12 of the box) and therefore never matches
`TRACE_UUID`. -/
theorem C1_mp4_embed_extract_code_bug :
    embedMetadataMP4Bytes c1File c1Payload = some c1Stamped ∧
    subarrayM c1Stamped 36 52 = TRACE_UUID ∧
    extractMetadataMP4Bytes c1Stamped = none := by
  decide

/-- C6: when the container has no top-level `moov` box, embedding fails
with the hard error (no write happens, the file is unchanged) while
extraction returns the `null` "no metadata" signal rather than an error. -/
theorem C6_no_moov_embed_error_extract_null (buf payload : Bytes)
    (h : findAndParseBox buf "moov" = none) :
    embedMetadataMP4Bytes buf payload = none ∧
    embedMetadataMP4FS buf payload = buf ∧
    extractMetadataMP4Bytes buf = none := by
  refine ⟨?_, ?_, ?_⟩
  · simp [embedMetadataMP4Bytes, h]
  · simp [embedMetadataMP4FS, embedMetadataMP4Bytes, h]
  · simp [extractMetadataMP4Bytes, h]

/-- Witness for C6: a file whose only top-level box is `free`. -/
theorem C6_no_moov_embed_error_extract_null_witness :
    findAndParseBox [0, 0, 0, 8, 102, 114, 101, 101] "moov" = none ∧
    (embedMetadataMP4Bytes [0, 0, 0, 8, 102, 114, 101, 101] c1Payload = none ∧
     embedMetadataMP4FS [0, 0, 0, 8, 102, 114, 101, 101] c1Payload =
       [0, 0, 0, 8, 102, 114, 101, 101] ∧
     extractMetadataMP4Bytes [0, 0, 0, 8, 102, 114, 101, 101] = none) :=
  ⟨by decide, C6_no_moov_embed_error_extract_null _ _ (by decide)⟩

/-- Fuel stability of the scan loop: any two fuels exceeding the remaining
buffer length give the same result, so `findAndParseBox` computes the
source loop's value and the loop terminates on every input. -/
theorem findBoxAux_stable (buffer : Bytes) (t : String) :
    ∀ (f₁ offset f₂ : Nat),
      buffer.length - offset < f₁ → buffer.length - offset < f₂ →
      findBoxAux buffer t f₁ offset = findBoxAux buffer t f₂ offset := by
  intro f₁
  induction f₁ with
  | zero =>
    intro offset f₂ h₁ _
    omega
  | succ a ih =>
    intro offset f₂ h₁ h₂
    cases f₂ with
    | zero => omega
    | succ b =>
      simp only [findBoxAux]
      by_cases hg : offset + 8 < buffer.length
      · simp only [hg, if_true]
        by_cases hs : readUInt32BE buffer offset = 1
        · simp only [hs, if_true]
          by_cases he : offset + 16 > buffer.length
          · simp [he]
          · simp only [he, if_false]
            by_cases hf : offset + 16 + 4 > buffer.length
            · simp [hf]
            · simp only [hf, if_false]
              by_cases ht : subarrayM buffer (offset + 16) (offset + 16 + 4) =
                  boxTypeBytes t
              · simp [ht]
              · simp only [ht, if_false]
                by_cases hz : readUInt64BE buffer (offset + 8) = 0
                · simp [hz]
                · simp only [hz, if_false]
                  exact ih (offset + readUInt64BE buffer (offset + 8)) b
                    (by omega) (by omega)
        · simp only [hs, if_false]
          by_cases hf : offset + 4 + 4 > buffer.length
          · simp [hf]
          · simp only [hf, if_false]
            by_cases ht : subarrayM buffer (offset + 4) (offset + 4 + 4) =
                boxTypeBytes t
            · simp [ht]
            · simp only [ht, if_false]
              by_cases hz : readUInt32BE buffer offset = 0
              · simp [hz]
              · simp only [hz, if_false]
                have hge1 : 1 ≤ readUInt32BE buffer offset := by omega
                exact ih (offset + readUInt32BE buffer offset) b
                  (by omega) (by omega)
      · simp [hg]

/-- C4: when the leading 32-bit size field of the box at `offset` equals
exactly 1, the scanner treats it as the extended-size marker: it reads the
true 64-bit size from the 8 bytes completing the 16-byte extended header
(bytes `offset + 8 .. offset + 16`), advances the header accordingly, reads
the 4-byte tag that follows (bytes `offset + 16 .. offset + 20`), and on a
match returns a box whose payload runs from after the tag — plus a fixed
4-byte version/flags prefix when the tag is `meta` — up to `size` bytes
from the box start (`offset + size`, clamped to the buffer). -/
theorem C4_extended_size_box_parsing (buffer : Bytes) (t : String)
    (offset fuel : Nat)
    (hg : offset + 8 < buffer.length)
    (h1 : readUInt32BE buffer offset = 1)
    (he : offset + 16 ≤ buffer.length)
    (hfit : offset + 20 ≤ buffer.length)
    (htag : subarrayM buffer (offset + 16) (offset + 20) = boxTypeBytes t) :
    findBoxAux buffer t (fuel + 1) offset =
      some ⟨readUInt64BE buffer (offset + 8), t,
        subarrayM buffer (offset + 20 + (if t = "meta" then 4 else 0))
          (offset + readUInt64BE buffer (offset + 8)), offset⟩ := by
  have he' : ¬ (offset + 16 > buffer.length) := by omega
  have hf' : ¬ (offset + 16 + 4 > buffer.length) := by omega
  have htag' : subarrayM buffer (offset + 16) (offset + 16 + 4) = boxTypeBytes t := by
    have : offset + 16 + 4 = offset + 20 := by omega
    rw [this]
    exact htag
  simp only [findBoxAux, hg, if_true, h1, if_true, he', if_false, hf', htag']

/-- Concrete container with one extended-size `moov` box: 32-bit size 1,
four unused bytes, 64-bit size 28, tag, 8 payload bytes. -/
def c4Buf : Bytes :=
  [0, 0, 0, 1, 9, 9, 9, 9, 0, 0, 0, 0, 0, 0, 0, 28,
   109, 111, 111, 118, 1, 2, 3, 4, 5, 6, 7, 8]

/-- Witness for C4 at the concrete extended-size container. -/
theorem C4_extended_size_box_parsing_witness :
    readUInt32BE c4Buf 0 = 1 ∧
    findAndParseBox c4Buf "moov" = some ⟨28, "moov", [1, 2, 3, 4, 5, 6, 7, 8], 0⟩ := by
  refine ⟨by decide, ?_⟩
  have h := C4_extended_size_box_parsing c4Buf "moov" 0 c4Buf.length
    (by decide) (by decide) (by decide) (by decide) (by decide)
  simp only [findAndParseBox]
  rw [h]
  decide

/-- C5 counterexample to the claim as stated: in this 9-byte buffer the
first box declares size 100, overrunning the buffer end, yet the scan does
not return "no match" — the box's tag matches, so `findAndParseBox`
returns it (with the payload clamped to the buffer end). -/
theorem C5_overrun_match_counterexample :
    readUInt32BE [0, 0, 0, 100, 109, 111, 111, 118, 0] 0 = 100 ∧
    ([0, 0, 0, 100, 109, 111, 111, 118, 0] : Bytes).length < 0 + 100 ∧
    findAndParseBox [0, 0, 0, 100, 109, 111, 111, 118, 0] "moov" ≠ none := by
  decide

/-- C5 (amended): for every buffer, tag and start offset the scan
terminates — its value is fuel-independent once the fuel exceeds the
remaining buffer length; a non-matching box with declared size zero ends
the scan with no match; a non-matching box whose declared size overruns
the buffer end also ends the scan with no match; but a matching box is
returned even when its declared size is zero or overruns, with its payload
clamped to the buffer end. -/
theorem C5_scan_terminates_amended :
    (∀ (buffer : Bytes) (t : String) (f₁ offset f₂ : Nat),
      buffer.length - offset < f₁ → buffer.length - offset < f₂ →
      findBoxAux buffer t f₁ offset = findBoxAux buffer t f₂ offset) ∧
    (∀ (buffer : Bytes) (t : String) (offset fuel : Nat),
      offset + 8 < buffer.length →
      readUInt32BE buffer offset = 0 →
      subarrayM buffer (offset + 4) (offset + 8) ≠ boxTypeBytes t →
      findBoxAux buffer t (fuel + 1) offset = none) ∧
    (∀ (buffer : Bytes) (t : String) (offset fuel : Nat),
      offset + 8 < buffer.length →
      subarrayM buffer (offset + 4) (offset + 8) ≠ boxTypeBytes t →
      buffer.length < offset + readUInt32BE buffer offset →
      findBoxAux buffer t (fuel + 1) offset = none) ∧
    (∀ (buffer : Bytes) (t : String) (offset fuel : Nat),
      offset + 8 < buffer.length →
      readUInt32BE buffer offset ≠ 1 →
      subarrayM buffer (offset + 4) (offset + 8) = boxTypeBytes t →
      findBoxAux buffer t (fuel + 1) offset =
        some ⟨readUInt32BE buffer offset, t,
          subarrayM buffer (offset + 8 + (if t = "meta" then 4 else 0))
            (offset + readUInt32BE buffer offset), offset⟩) := by
  refine ⟨findBoxAux_stable, ?_, ?_, ?_⟩
  · intro buffer t offset fuel hg hz ht
    have h1 : readUInt32BE buffer offset ≠ 1 := by omega
    have hf : ¬ (offset + 4 + 4 > buffer.length) := by omega
    have ht' : subarrayM buffer (offset + 4) (offset + 4 + 4) ≠ boxTypeBytes t := by
      have : offset + 4 + 4 = offset + 8 := by omega
      rw [this]
      exact ht
    simp [findBoxAux, hg, h1, hf, ht', hz]
  · intro buffer t offset fuel hg ht hover
    have h1 : readUInt32BE buffer offset ≠ 1 := by omega
    have hz : readUInt32BE buffer offset ≠ 0 := by omega
    have hf : ¬ (offset + 4 + 4 > buffer.length) := by omega
    have ht' : subarrayM buffer (offset + 4) (offset + 4 + 4) ≠ boxTypeBytes t := by
      have : offset + 4 + 4 = offset + 8 := by omega
      rw [this]
      exact ht
    simp only [findBoxAux, hg, if_true, h1, if_false, hf, ht', hz]
    cases fuel with
    | zero => simp [findBoxAux]
    | succ k =>
      have : ¬ (offset + readUInt32BE buffer offset + 8 < buffer.length) := by omega
      simp [findBoxAux, this]
  · intro buffer t offset fuel hg h1 ht
    have hf : ¬ (offset + 4 + 4 > buffer.length) := by omega
    have ht' : subarrayM buffer (offset + 4) (offset + 4 + 4) = boxTypeBytes t := by
      have : offset + 4 + 4 = offset + 8 := by omega
      rw [this]
      exact ht
    simp only [findBoxAux, hg, if_true, h1, if_false, hf, ht', if_true]

/-- Witness for the amended C5 at concrete buffers covering each conjunct:
fuel independence, the zero-size stop, the overrun stop, and the clamped
match. -/
theorem C5_scan_terminates_amended_witness :
    (findBoxAux [0, 0, 0, 100, 102, 114, 101, 101, 0] "moov" 10 0 =
      findBoxAux [0, 0, 0, 100, 102, 114, 101, 101, 0] "moov" 20 0) ∧
    (findBoxAux [0, 0, 0, 0, 102, 114, 101, 101, 0] "moov" 7 0 = none) ∧
    (findBoxAux [0, 0, 0, 100, 102, 114, 101, 101, 0] "moov" 7 0 = none) ∧
    (findBoxAux [0, 0, 0, 100, 109, 111, 111, 118, 0] "moov" 7 0 =
      some ⟨100, "moov", [0], 0⟩) := by
  refine ⟨?_, ?_, ?_, ?_⟩
  · exact C5_scan_terminates_amended.1 _ "moov" 10 0 20 (by decide) (by decide)
  · exact C5_scan_terminates_amended.2.1 _ "moov" 0 6 (by decide) (by decide) (by decide)
  · exact C5_scan_terminates_amended.2.2.1 _ "moov" 0 6 (by decide) (by decide) (by decide)
  · have h := C5_scan_terminates_amended.2.2.2
      [0, 0, 0, 100, 109, 111, 111, 118, 0] "moov" 0 6 (by decide) (by decide) (by decide)
    rw [h]
    decide

/-- Whether the `needle` bytes occur in `buf` starting exactly at `p`. -/
def matchesAt (buf needle : Bytes) (p : Nat) : Bool :=
  subarrayM buf p (p + needle.length) == needle

/-- Ascending scan for the first match, `fuel` positions starting at `p`. -/
def scanFirstFrom (buf needle : Bytes) : Nat → Nat → Option Nat
  | 0, _ => none
  | k + 1, p =>
    if matchesAt buf needle p then some p else scanFirstFrom buf needle k (p + 1)

/-- Model of `buffer.indexOf(needle, start)` for a nonempty needle. -/
def indexOfSubFrom (buf needle : Bytes) (start : Nat) : Option Nat :=
  scanFirstFrom buf needle (buf.length + 1 - start) start

/-- Descending scan for the last match at a position `≤ top`. -/
def scanLastAt (buf needle : Bytes) : Nat → Option Nat
  | 0 => if matchesAt buf needle 0 then some 0 else none
  | p + 1 =>
    if matchesAt buf needle (p + 1) then some (p + 1) else scanLastAt buf needle p

/-- Model of `buffer.lastIndexOf(needle)` for a nonempty needle. -/
def lastIndexOfSub (buf needle : Bytes) : Option Nat :=
  scanLastAt buf needle buf.length

/-- Number of positions at which `needle` occurs in `buf`. -/
def countMatches (buf needle : Bytes) : Nat :=
  ((List.range (buf.length + 1)).filter (fun p => matchesAt buf needle p)).length

/-- The descending scan finds `q` when `q` matches and nothing above it does. -/
theorem scanLastAt_eq_some (buf needle : Bytes) (q : Nat)
    (hq : matchesAt buf needle q = true) :
    ∀ top, q ≤ top → (∀ r, q < r → r ≤ top → matchesAt buf needle r = false) →
      scanLastAt buf needle top = some q := by
  intro top
  induction top with
  | zero =>
    intro h1 _
    have : q = 0 := by omega
    subst this
    simp [scanLastAt, hq]
  | succ p ih =>
    intro h1 h2
    by_cases hqt : q = p + 1
    · subst hqt
      simp [scanLastAt, hq]
    · have hfail : matchesAt buf needle (p + 1) = false := h2 (p + 1) (by omega) (by omega)
      simp only [scanLastAt, hfail]
      simp only [Bool.false_eq_true, if_false]
      exact ih (by omega) (fun r hr hr2 => h2 r hr (by omega))

/-- The ascending scan finds `q` when `q` matches and nothing below it does. -/
theorem scanFirstFrom_eq_some (buf needle : Bytes) (q : Nat)
    (hq : matchesAt buf needle q = true) :
    ∀ k p, p ≤ q → q < p + k → (∀ r, p ≤ r → r < q → matchesAt buf needle r = false) →
      scanFirstFrom buf needle k p = some q := by
  intro k
  induction k with
  | zero =>
    intro p h1 h2
    omega
  | succ k ih =>
    intro p h1 h2 h3
    by_cases hpq : p = q
    · subst hpq
      simp [scanFirstFrom, hq]
    · have hfail : matchesAt buf needle p = false := h3 p (le_refl p) (by omega)
      simp only [scanFirstFrom, hfail]
      simp only [Bool.false_eq_true, if_false]
      exact ih (p + 1) (by omega) (by omega) (fun r hr hr2 => h3 r (by omega) hr2)

/-- A match pins every needle byte into the buffer. -/
theorem matchesAt_spec (buf needle : Bytes) (p : Nat) (hn : 0 < needle.length)
    (h : matchesAt buf needle p = true) :
    p + needle.length ≤ buf.length ∧
    ∀ j, j < needle.length → buf.getD (p + j) 0 = needle.getD j 0 := by
  rw [matchesAt, beq_iff_eq] at h
  have harith : p + needle.length - p = needle.length := by omega
  rw [subarrayM, harith] at h
  have hlen : needle.length ≤ buf.length - p := by
    have hl := congrArg List.length h
    simp only [List.length_take, List.length_drop] at hl
    omega
  have hple : p + needle.length ≤ buf.length := by omega
  refine ⟨hple, ?_⟩
  intro j hj
  have hj1 : p + j < buf.length := by omega
  have hj2 : j < (List.take needle.length (List.drop p buf)).length := by
    simp only [List.length_take, List.length_drop]
    omega
  have hj3 : j < (List.drop p buf).length := by
    simp only [List.length_drop]
    omega
  rw [List.getD_eq_getElem buf 0 hj1, List.getD_eq_getElem needle 0 hj]
  have e1 : needle[j] =
      (List.take (List.length needle) (List.drop p buf))[j] :=
    List.getElem_of_eq h.symm hj
  rw [e1, List.getElem_take (List.drop p buf) (i := j) (h := hj2),
    List.getElem_drop buf (h := hj3)]

/-- If the needle's first byte cannot sit at `p`, there is no match there. -/
theorem matchesAt_false_of_head (buf needle : Bytes) (p : Nat) (hn : 0 < needle.length)
    (hne : p < buf.length → buf.getD p 0 ≠ needle.getD 0 0) :
    matchesAt buf needle p = false := by
  by_contra hc
  rw [Bool.not_eq_false] at hc
  obtain ⟨hlen, hbytes⟩ := matchesAt_spec buf needle p hn hc
  have hp : p < buf.length := by omega
  have := hbytes 0 hn
  simp only [Nat.add_zero] at this
  exact hne hp this

/-- Ed25519 public-key object produced by `createPublicKey`. -/
abbrev PubKey := String

/-- Platform builtins consumed by the library (collaborator interfaces in
the sense of §6 of the specification): the UTF-8 and base64 codecs of
`Buffer`, `JSON.stringify`/`JSON.parse` on the two-field envelope,
`JSON.parse` on manifest text, Ed25519 key parsing/verification and
SHA-256.  Every theorem quantifies over a `Builtins` value and assumes
only explicitly stated, satisfiable facts about it; `none` results model
thrown exceptions. -/
structure Builtins where
  str2bytes : String → Bytes
  bytes2str : Bytes → String
  b64enc : Bytes → String
  b64dec : String → Bytes
  stringifyEnvelope : String → String → String
  parseEnvelope : String → Option (String × String)
  jsonParse : String → Option JSON
  parseKey : String → Option PubKey
  verifyEd : String → PubKey → String → Bool
  sha256hex : Bytes → String

/-- Model of `embedMetadataWebM` (`src/README.md` lines 545-562) at the
byte level: appends `\n<!--TRACEPROV:<base64 of the UTF-8 bytes of
JSON.stringify({manifest, signature})>-->` to the raw file bytes and
writes the result back. -/
def embedMetadataWebMBytes (B : Builtins) (fileBuffer : Bytes)
    (manifest signature : String) : Bytes :=
  fileBuffer ++
    B.str2bytes ("\n<!--TRACEPROV:" ++
      B.b64enc (B.str2bytes (B.stringifyEnvelope manifest signature)) ++ "-->")

/-- Model of `extractMetadataWebM` (`src/README.md` lines 567-597) at the
byte level: find the last occurrence of the marker prefix, then the next
closing delimiter, decode the enclosed base64 and parse the JSON envelope
(`none` models both `null` returns and the caught parse exception). -/
def extractMetadataWebMCore (B : Builtins) (fileBuffer : Bytes) :
    Option (String × String) :=
  let tagMarkerBytes := B.str2bytes "<!--TRACEPROV:"
  match lastIndexOfSub fileBuffer tagMarkerBytes with
  | none => none
  | some idx =>
    let start := idx + tagMarkerBytes.length
    match indexOfSubFrom fileBuffer (B.str2bytes "-->") start with
    | none => none
    | some e =>
      let base64Data := B.bytes2str (subarrayM fileBuffer start e)
      B.parseEnvelope (B.bytes2str (B.b64dec base64Data))

/-- ASCII bytes of the WebM marker prefix `<!--TRACEPROV:`. -/
def webmMarker : Bytes := [60, 33, 45, 45, 84, 82, 65, 67, 69, 80, 82, 79, 86, 58]

/-- ASCII bytes of the closing delimiter `-->`. -/
def webmEnd : Bytes := [45, 45, 62]

/-- Bytes the standard base64 alphabet can produce
(`A-Z a-z 0-9 + / =`); in particular never `<` (60), `-` (45) or
`>` (62). -/
def isB64Byte (b : Nat) : Prop :=
  (65 ≤ b ∧ b ≤ 90) ∨ (97 ≤ b ∧ b ≤ 122) ∨ (48 ≤ b ∧ b ≤ 57) ∨
    b = 43 ∨ b = 47 ∨ b = 61

/-- Appended-tail bytes of a WebM embed around base64 text `mid`. -/
def webmTail (mid : Bytes) : Bytes :=
  [10] ++ webmMarker ++ mid ++ webmEnd

/-- Any byte of the appended tail after the marker's leading `<` differs
from `<` (60), and positions past the buffer read the default 0. -/
theorem webm_tail_byte_ne (file mid : Bytes) (hmid : ∀ b ∈ mid, isB64Byte b)
    (r : Nat) (hr : file.length + 1 < r) :
    (file ++ webmTail mid).getD r 0 ≠ 60 := by
  have hflr : file.length ≤ r := by omega
  rw [List.getD_append_right file (webmTail mid) 0 r hflr]
  set j := r - file.length with hj
  have hj2 : 2 ≤ j := by omega
  show (webmTail mid).getD j 0 ≠ 60
  rw [webmTail]
  have h10 : ([10] : Bytes).length ≤ j := by simp; omega
  rw [List.append_assoc, List.append_assoc,
    List.getD_append_right [10] (webmMarker ++ (mid ++ webmEnd)) 0 j h10]
  simp only [List.length_singleton]
  set i := j - 1 with hi
  have hi1 : 1 ≤ i := by omega
  by_cases him : i < webmMarker.length
  · rw [List.getD_append webmMarker (mid ++ webmEnd) 0 i him]
    have hm : ∀ i' < 14, 1 ≤ i' → webmMarker.getD i' 0 ≠ 60 := by decide
    exact hm i (by simpa [webmMarker] using him) hi1
  · push_neg at him
    rw [List.getD_append_right webmMarker (mid ++ webmEnd) 0 i him]
    set i2 := i - webmMarker.length with hi2
    by_cases himid : i2 < mid.length
    · rw [List.getD_append mid webmEnd 0 i2 himid]
      rw [List.getD_eq_getElem mid 0 himid]
      have := hmid (mid[i2]) (List.getElem_mem himid)
      rw [isB64Byte] at this
      omega
    · push_neg at himid
      rw [List.getD_append_right mid webmEnd 0 i2 himid]
      set i3 := i2 - mid.length with hi3
      by_cases hiend : i3 < webmEnd.length
      · rw [List.getD_eq_getElem webmEnd 0 hiend]
        have : ∀ i' < 3, webmEnd.getD i' 0 ≠ 60 := by decide
        have h60 := this i3 (by simpa [webmEnd] using hiend)
        rwa [List.getD_eq_getElem webmEnd 0 hiend] at h60
      · push_neg at hiend
        rw [List.getD_eq_default webmEnd 0 hiend]
        omega

/-- Marker occurrence structure of a WebM-embedded file: the appended
marker is the last occurrence of the prefix, the first closing delimiter
after it closes the appended envelope, and the slice between the two is
exactly the base64 text. -/
theorem webm_tail_structure (file mid : Bytes) (hmid : ∀ b ∈ mid, isB64Byte b) :
    lastIndexOfSub (file ++ webmTail mid) webmMarker = some (file.length + 1) ∧
    indexOfSubFrom (file ++ webmTail mid) webmEnd (file.length + 15) =
      some (file.length + 15 + mid.length) ∧
    subarrayM (file ++ webmTail mid) (file.length + 15)
      (file.length + 15 + mid.length) = mid := by
  have hlen : (file ++ webmTail mid).length = file.length + 18 + mid.length := by
    simp [webmTail, webmMarker, webmEnd, List.length_append]
    omega
  have hmatch : matchesAt (file ++ webmTail mid) webmMarker (file.length + 1) = true := by
    rw [matchesAt, beq_iff_eq, subarrayM]
    have harith : file.length + 1 + webmMarker.length - (file.length + 1) =
        webmMarker.length := by omega
    rw [harith]
    have hdrop : (file ++ webmTail mid).drop (file.length + 1) =
        webmMarker ++ (mid ++ webmEnd) := by
      rw [List.drop_append 1]
      simp [webmTail]
    rw [hdrop, List.take_append_of_le_length (le_refl webmMarker.length),
      List.take_length]
  refine ⟨?_, ?_, ?_⟩
  · rw [lastIndexOfSub]
    refine scanLastAt_eq_some _ _ (file.length + 1) hmatch _ (by omega) ?_
    intro r hr _
    refine matchesAt_false_of_head _ _ _ (by simp [webmMarker]) ?_
    intro _
    have := webm_tail_byte_ne file mid hmid r hr
    simpa [webmMarker] using this
  · rw [indexOfSubFrom]
    have hmatchEnd : matchesAt (file ++ webmTail mid) webmEnd
        (file.length + 15 + mid.length) = true := by
      rw [matchesAt, beq_iff_eq, subarrayM]
      have harith : file.length + 15 + mid.length + webmEnd.length -
          (file.length + 15 + mid.length) = webmEnd.length := by omega
      rw [harith]
      have hsplit : file ++ webmTail mid =
          (file ++ [10] ++ webmMarker ++ mid) ++ webmEnd := by
        simp [webmTail, List.append_assoc]
      have hlen2 : (file ++ [10] ++ webmMarker ++ mid).length =
          file.length + 15 + mid.length := by
        simp [webmMarker, List.length_append]
        omega
      rw [hsplit, ← hlen2, List.drop_left, List.take_length]
    refine scanFirstFrom_eq_some _ _ (file.length + 15 + mid.length) hmatchEnd _ _
      (by omega) (by omega) ?_
    intro r hr1 hr2
    refine matchesAt_false_of_head _ _ _ (by simp [webmEnd]) ?_
    intro _
    -- byte at r lies inside the base64 text, which contains no 45
    have hflr : file.length ≤ r := by omega
    rw [List.getD_append_right file (webmTail mid) 0 r hflr]
    have hj15 : 15 ≤ r - file.length := by omega
    have hjlt : r - file.length < 15 + mid.length := by omega
    rw [webmTail]
    have houter : r - file.length < ([10] ++ webmMarker ++ mid : Bytes).length := by
      simp only [List.length_append, webmMarker, List.length_cons, List.length_nil,
        List.length_singleton]
      omega
    rw [List.getD_append ([10] ++ webmMarker ++ mid) webmEnd 0 _ houter]
    have hinner : ([10] ++ webmMarker : Bytes).length ≤ r - file.length := by
      simp only [List.length_append, webmMarker, List.length_cons, List.length_nil,
        List.length_singleton]
      omega
    rw [List.getD_append_right ([10] ++ webmMarker) mid 0 _ hinner]
    have hmidlt : r - file.length - ([10] ++ webmMarker : Bytes).length < mid.length := by
      simp only [List.length_append, webmMarker, List.length_cons, List.length_nil,
        List.length_singleton] at hjlt ⊢
      omega
    rw [List.getD_eq_getElem mid 0 hmidlt]
    have hb := hmid _ (List.getElem_mem hmidlt)
    rw [isB64Byte] at hb
    have h45 : List.getD webmEnd 0 0 = 45 := rfl
    rw [h45]
    omega
  · rw [subarrayM]
    have harith : file.length + 15 + mid.length - (file.length + 15) = mid.length := by
      omega
    rw [harith]
    have hsplit : file ++ webmTail mid =
        (file ++ [10] ++ webmMarker) ++ (mid ++ webmEnd) := by
      simp [webmTail, List.append_assoc]
    have hlen2 : (file ++ [10] ++ webmMarker).length = file.length + 15 := by
      simp [webmMarker, List.length_append]
    rw [hsplit, ← hlen2, List.drop_left, List.take_left]

/-- Round-trip core for the WebM marker codec; the hypotheses state only
standard behaviour of the platform codecs: UTF-8 agrees with char codes on
ASCII, base64 output uses the base64 alphabet, the codecs invert, and
`JSON.parse` inverts `JSON.stringify` on the envelope. -/
theorem webm_round_trip_core (B : Builtins) (file : Bytes)
    (manifest signature : String)
    (HAscii : ∀ s : String, (∀ c ∈ s.data, c.toNat < 128) →
      B.str2bytes s = s.data.map Char.toNat)
    (HAlpha : ∀ payload : Bytes, ∀ c ∈ (B.b64enc payload).data, isB64Byte c.toNat)
    (HStrInv : ∀ s : String, B.bytes2str (B.str2bytes s) = s)
    (HB64Inv : B.b64dec (B.b64enc (B.str2bytes (B.stringifyEnvelope manifest signature))) =
      B.str2bytes (B.stringifyEnvelope manifest signature))
    (HEnv : B.parseEnvelope (B.stringifyEnvelope manifest signature) =
      some (manifest, signature)) :
    extractMetadataWebMCore B (embedMetadataWebMBytes B file manifest signature) =
      some (manifest, signature) := by
  set env := B.stringifyEnvelope manifest signature with henv
  set payload := B.str2bytes env with hpayload
  set b64s := B.b64enc payload with hb64s
  have hb64ascii : ∀ c ∈ b64s.data, c.toNat < 128 := by
    intro c hc
    have h := HAlpha payload c hc
    rw [isB64Byte] at h
    omega
  set mid := b64s.data.map Char.toNat with hmiddef
  have hmid : ∀ b ∈ mid, isB64Byte b := by
    intro b hb
    obtain ⟨c, hc, rfl⟩ := List.mem_map.mp hb
    exact HAlpha payload c hc
  have h1 : "\n<!--TRACEPROV:".data.map Char.toNat = 10 :: webmMarker := by decide
  have h2 : "-->".data.map Char.toNat = webmEnd := by decide
  have hpre : ∀ c ∈ "\n<!--TRACEPROV:".data, c.toNat < 128 := by decide
  have hsuf : ∀ c ∈ "-->".data, c.toNat < 128 := by decide
  have htail : B.str2bytes ("\n<!--TRACEPROV:" ++ b64s ++ "-->") = webmTail mid := by
    rw [HAscii _ ?hall]
    case hall =>
      intro c hc
      rw [String.data_append, String.data_append] at hc
      rcases List.mem_append.mp hc with hc | hc
      · rcases List.mem_append.mp hc with hc | hc
        · exact hpre c hc
        · exact hb64ascii c hc
      · exact hsuf c hc
    rw [String.data_append, String.data_append, List.map_append, List.map_append,
      h1, h2, webmTail]
    simp [← hmiddef]
  have hembed : embedMetadataWebMBytes B file manifest signature =
      file ++ webmTail mid := by
    rw [embedMetadataWebMBytes, ← henv, ← hpayload, ← hb64s, htail]
  have hmark : B.str2bytes "<!--TRACEPROV:" = webmMarker := by
    rw [HAscii _ (by decide)]
    decide
  have hend : B.str2bytes "-->" = webmEnd := by
    rw [HAscii _ (by decide)]
    exact h2
  obtain ⟨hLast, hFirst, hSlice⟩ := webm_tail_structure file mid hmid
  have hstart : file.length + 1 + webmMarker.length = file.length + 15 := by
    simp [webmMarker]
  rw [hembed, extractMetadataWebMCore]
  simp only [hmark, hend, hLast, hstart, hFirst, hSlice]
  have hmidb : B.bytes2str mid = b64s := by
    rw [hmiddef, ← HAscii b64s hb64ascii, HStrInv]
  rw [hmidb, HB64Inv, hpayload, HStrInv]
  exact HEnv

/-- C9: for every WebM file buffer and every `(manifest, signature)` pair,
`embedMetadataWebM` appends the delimited base64 envelope marker
`<!--TRACEPROV:<base64>-->` (preceded by a newline) to the end of the raw
file bytes, and `extractMetadataWebM` recovers exactly that pair by
scanning from the end of the file for the last marker prefix, then forward
for the closing delimiter, decoding the base64 and parsing the JSON
envelope.  The hypotheses state only standard behaviour of the platform
codecs. -/
theorem C9_webm_embed_extract_round_trip (B : Builtins) (file : Bytes)
    (manifest signature : String)
    (HAscii : ∀ s : String, (∀ c ∈ s.data, c.toNat < 128) →
      B.str2bytes s = s.data.map Char.toNat)
    (HAlpha : ∀ payload : Bytes, ∀ c ∈ (B.b64enc payload).data, isB64Byte c.toNat)
    (HStrInv : ∀ s : String, B.bytes2str (B.str2bytes s) = s)
    (HB64Inv : B.b64dec (B.b64enc (B.str2bytes (B.stringifyEnvelope manifest signature))) =
      B.str2bytes (B.stringifyEnvelope manifest signature))
    (HEnv : B.parseEnvelope (B.stringifyEnvelope manifest signature) =
      some (manifest, signature)) :
    extractMetadataWebMCore B (embedMetadataWebMBytes B file manifest signature) =
      some (manifest, signature) :=
  webm_round_trip_core B file manifest signature HAscii HAlpha HStrInv HB64Inv HEnv

/-- Bytes of a base64 string are base64-alphabet bytes. -/
theorem b64list_alpha (B : Builtins)
    (HAlpha : ∀ payload : Bytes, ∀ c ∈ (B.b64enc payload).data, isB64Byte c.toNat)
    (payload : Bytes) :
    ∀ b ∈ (B.b64enc payload).data.map Char.toNat, isB64Byte b := by
  intro b hb
  obtain ⟨c, hc, rfl⟩ := List.mem_map.mp hb
  exact HAlpha payload c hc

/-- A WebM embed is exactly the original file followed by the marker tail. -/
theorem webm_embed_eq_tail (B : Builtins)
    (HAscii : ∀ s : String, (∀ c ∈ s.data, c.toNat < 128) →
      B.str2bytes s = s.data.map Char.toNat)
    (HAlpha : ∀ payload : Bytes, ∀ c ∈ (B.b64enc payload).data, isB64Byte c.toNat)
    (file : Bytes) (m s : String) :
    embedMetadataWebMBytes B file m s =
      file ++ webmTail ((B.b64enc (B.str2bytes (B.stringifyEnvelope m s))).data.map
        Char.toNat) := by
  set b64s := B.b64enc (B.str2bytes (B.stringifyEnvelope m s)) with hb
  have hb64ascii : ∀ c ∈ b64s.data, c.toNat < 128 := by
    intro c hc
    have h := HAlpha _ c hc
    rw [isB64Byte] at h
    omega
  have h1 : "\n<!--TRACEPROV:".data.map Char.toNat = 10 :: webmMarker := by decide
  have h2 : "-->".data.map Char.toNat = webmEnd := by decide
  have hpre : ∀ c ∈ "\n<!--TRACEPROV:".data, c.toNat < 128 := by decide
  have hsuf : ∀ c ∈ "-->".data, c.toNat < 128 := by decide
  rw [embedMetadataWebMBytes, ← hb]
  congr 1
  rw [HAscii _ ?hall]
  case hall =>
    intro c hc
    rw [String.data_append, String.data_append] at hc
    rcases List.mem_append.mp hc with hc | hc
    · rcases List.mem_append.mp hc with hc | hc
      · exact hpre c hc
      · exact hb64ascii c hc
    · exact hsuf c hc
  rw [String.data_append, String.data_append, List.map_append, List.map_append,
    h1, h2, webmTail]
  simp

/-- The marker matches at its appended position. -/
theorem webm_marker_match_at (file mid : Bytes) :
    matchesAt (file ++ webmTail mid) webmMarker (file.length + 1) = true := by
  rw [matchesAt, beq_iff_eq, subarrayM]
  have harith : file.length + 1 + webmMarker.length - (file.length + 1) =
      webmMarker.length := by omega
  rw [harith]
  have hdrop : (file ++ webmTail mid).drop (file.length + 1) =
      webmMarker ++ (mid ++ webmEnd) := by
    rw [List.drop_append 1]
    simp [webmTail]
  rw [hdrop, List.take_append_of_le_length (le_refl webmMarker.length),
    List.take_length]

/-- A needle match within the original prefix is unaffected by appending. -/
theorem matchesAt_append_of_fits (file t needle : Bytes) (p : Nat)
    (hfit : p + needle.length ≤ file.length) :
    matchesAt (file ++ t) needle p = matchesAt file needle p := by
  rw [matchesAt, matchesAt, subarrayM, subarrayM]
  have harith : p + needle.length - p = needle.length := by omega
  rw [harith]
  rw [List.drop_append_of_le_length (by omega)]
  rw [List.take_append_of_le_length (by simp [List.length_drop]; omega)]

/-- No match when the needle would overrun the buffer. -/
theorem matchesAt_false_of_long (buf needle : Bytes) (p : Nat)
    (hn : 0 < needle.length) (hlong : buf.length < p + needle.length) :
    matchesAt buf needle p = false := by
  by_contra hc
  rw [Bool.not_eq_false] at hc
  have := (matchesAt_spec buf needle p hn hc).1
  omega

/-- No marker match straddling the boundary: the appended newline byte 10
never occurs in the marker. -/
theorem webm_straddle_false (file mid : Bytes) (p : Nat)
    (hp : p ≤ file.length) (hp2 : file.length < p + webmMarker.length) :
    matchesAt (file ++ webmTail mid) webmMarker p = false := by
  by_contra hc
  rw [Bool.not_eq_false] at hc
  obtain ⟨_, hbytes⟩ := matchesAt_spec _ _ _ (by simp [webmMarker]) hc
  have hj : file.length - p < webmMarker.length := by omega
  have h10 := hbytes (file.length - p) hj
  have hpos : p + (file.length - p) = file.length := by omega
  rw [hpos] at h10
  have hleft : (file ++ webmTail mid).getD file.length 0 = 10 := by
    rw [List.getD_append_right file (webmTail mid) 0 file.length (le_refl _)]
    simp [webmTail]
  rw [hleft] at h10
  have hno10 : ∀ j < 14, webmMarker.getD j 0 ≠ 10 := by decide
  exact hno10 (file.length - p) (by simpa [webmMarker] using hj) h10.symm

/-- No marker match strictly after the appended marker position. -/
theorem webm_after_false (file mid : Bytes) (hmid : ∀ b ∈ mid, isB64Byte b)
    (r : Nat) (hr : file.length + 1 < r) :
    matchesAt (file ++ webmTail mid) webmMarker r = false := by
  refine matchesAt_false_of_head _ _ _ (by simp [webmMarker]) ?_
  intro _
  have := webm_tail_byte_ne file mid hmid r hr
  simpa [webmMarker] using this

/-- Appending one WebM marker tail adds exactly one marker occurrence. -/
theorem countMatches_webm_step (file mid : Bytes)
    (hmid : ∀ b ∈ mid, isB64Byte b) :
    countMatches (file ++ webmTail mid) webmMarker =
      countMatches file webmMarker + 1 := by
  have hlen : (file ++ webmTail mid).length = file.length + 18 + mid.length := by
    simp [webmTail, webmMarker, webmEnd, List.length_append]
    omega
  rw [countMatches, countMatches, hlen]
  have hsplit : file.length + 18 + mid.length + 1 =
      (file.length + 1) + (mid.length + 18) := by omega
  rw [hsplit, List.range_add, List.filter_append, List.length_append]
  congr 1
  · have hcongr : List.filter (fun p => matchesAt (file ++ webmTail mid) webmMarker p)
        (List.range (file.length + 1)) =
        List.filter (fun p => matchesAt file webmMarker p)
        (List.range (file.length + 1)) := by
      refine List.filter_congr ?_
      intro p hp
      rw [List.mem_range] at hp
      by_cases hfit : p + webmMarker.length ≤ file.length
      · exact matchesAt_append_of_fits file (webmTail mid) webmMarker p hfit
      · push_neg at hfit
        rw [webm_straddle_false file mid p (by omega) hfit,
          matchesAt_false_of_long file webmMarker p (by simp [webmMarker]) hfit]
    rw [hcongr]
  · rw [List.filter_map, List.length_map]
    have hone : List.filter
        ((fun p => matchesAt (file ++ webmTail mid) webmMarker p) ∘
          (fun x => (file.length + 1) + x))
        (List.range (mid.length + 18)) = [0] := by
      have hn : mid.length + 18 = (mid.length + 17) + 1 := by omega
      rw [hn, List.range_succ_eq_map]
      rw [List.filter_cons]
      have h0 : ((fun p => matchesAt (file ++ webmTail mid) webmMarker p) ∘
          (fun x => (file.length + 1) + x)) 0 = true := by
        simp only [Function.comp, Nat.add_zero]
        exact webm_marker_match_at file mid
      rw [h0]
      simp only [if_true]
      rw [List.filter_map]
      have hnil : List.filter
          (((fun p => matchesAt (file ++ webmTail mid) webmMarker p) ∘
            (fun x => (file.length + 1) + x)) ∘ Nat.succ)
          (List.range (mid.length + 17)) = [] := by
        rw [List.filter_eq_nil_iff]
        intro i _
        simp only [Function.comp]
        rw [webm_after_false file mid hmid ((file.length + 1) + i.succ) (by omega)]
        simp
      rw [hnil]
      rfl
    rw [hone]
    rfl

/-- Repeated WebM stamping accumulates one marker per call. -/
theorem webm_foldl_count (B : Builtins)
    (HAscii : ∀ s : String, (∀ c ∈ s.data, c.toNat < 128) →
      B.str2bytes s = s.data.map Char.toNat)
    (HAlpha : ∀ payload : Bytes, ∀ c ∈ (B.b64enc payload).data, isB64Byte c.toNat) :
    ∀ (ps : List (String × String)) (file : Bytes),
      countMatches (ps.foldl (fun f p => embedMetadataWebMBytes B f p.1 p.2) file)
          webmMarker =
        countMatches file webmMarker + ps.length := by
  intro ps
  induction ps with
  | nil =>
    intro file
    simp
  | cons p qs ih =>
    intro file
    rw [List.foldl_cons, ih]
    rw [webm_embed_eq_tail B HAscii HAlpha file p.1 p.2]
    rw [countMatches_webm_step file _ (b64list_alpha B HAlpha _)]
    simp only [List.length_cons]
    omega

/-- After repeated stamping, extraction recovers the most recent envelope. -/
theorem webm_foldl_extract (B : Builtins)
    (HAscii : ∀ s : String, (∀ c ∈ s.data, c.toNat < 128) →
      B.str2bytes s = s.data.map Char.toNat)
    (HAlpha : ∀ payload : Bytes, ∀ c ∈ (B.b64enc payload).data, isB64Byte c.toNat)
    (HStrInv : ∀ s : String, B.bytes2str (B.str2bytes s) = s) :
    ∀ (ps : List (String × String)) (hne : ps ≠ []) (file : Bytes),
      (∀ p ∈ ps,
        B.b64dec (B.b64enc (B.str2bytes (B.stringifyEnvelope p.1 p.2))) =
          B.str2bytes (B.stringifyEnvelope p.1 p.2)) →
      (∀ p ∈ ps, B.parseEnvelope (B.stringifyEnvelope p.1 p.2) = some p) →
      extractMetadataWebMCore B
          (ps.foldl (fun f p => embedMetadataWebMBytes B f p.1 p.2) file) =
        some (ps.getLast hne) := by
  intro ps
  induction ps with
  | nil =>
    intro hne
    exact absurd rfl hne
  | cons p qs ih =>
    intro hne file hb64 henv
    cases qs with
    | nil =>
      rw [List.foldl_cons, List.foldl_nil, List.getLast_singleton]
      exact webm_round_trip_core B file p.1 p.2 HAscii HAlpha HStrInv
        (hb64 p (by simp)) (henv p (by simp))
    | cons q rest =>
      rw [List.foldl_cons, List.getLast_cons (by simp)]
      exact ih (by simp) (embedMetadataWebMBytes B file p.1 p.2)
        (fun r hr => hb64 r (List.mem_cons_of_mem p hr))
        (fun r hr => henv r (List.mem_cons_of_mem p hr))

/-- C10: unlike the MP4 path, re-stamping a WebM file never removes or
replaces a previously appended TRACE marker — each `embedMetadataWebM`
call preserves the existing bytes as a prefix and appends a fresh marker,
so after `n` consecutive calls the file holds the original marker count
plus `n`; and because extraction looks for the last occurrence of the
marker prefix, it always returns the most recently appended envelope. -/
theorem C10_webm_restamp_accumulates (B : Builtins) (file : Bytes)
    (ps : List (String × String)) (hne : ps ≠ [])
    (HAscii : ∀ s : String, (∀ c ∈ s.data, c.toNat < 128) →
      B.str2bytes s = s.data.map Char.toNat)
    (HAlpha : ∀ payload : Bytes, ∀ c ∈ (B.b64enc payload).data, isB64Byte c.toNat)
    (HStrInv : ∀ s : String, B.bytes2str (B.str2bytes s) = s)
    (HB64Inv : ∀ p ∈ ps,
      B.b64dec (B.b64enc (B.str2bytes (B.stringifyEnvelope p.1 p.2))) =
        B.str2bytes (B.stringifyEnvelope p.1 p.2))
    (HEnv : ∀ p ∈ ps, B.parseEnvelope (B.stringifyEnvelope p.1 p.2) = some p) :
    (∀ (f : Bytes) (m s : String),
      (embedMetadataWebMBytes B f m s).take f.length = f) ∧
    countMatches (ps.foldl (fun f p => embedMetadataWebMBytes B f p.1 p.2) file)
        webmMarker =
      countMatches file webmMarker + ps.length ∧
    extractMetadataWebMCore B
        (ps.foldl (fun f p => embedMetadataWebMBytes B f p.1 p.2) file) =
      some (ps.getLast hne) := by
  refine ⟨?_, ?_, ?_⟩
  · intro f m s
    rw [webm_embed_eq_tail B HAscii HAlpha f m s]
    exact List.take_left f _
  · exact webm_foldl_count B HAscii HAlpha ps file
  · exact webm_foldl_extract B HAscii HAlpha HStrInv ps hne file HB64Inv HEnv

/-- Concrete builtins for the witnesses: the UTF-8 codec as the code-point
identity (agreeing with real UTF-8 on the ASCII data the witnesses use),
a two-point base64 table, and an envelope codec keyed on a separator. -/
def witnessBuiltins : Builtins where
  str2bytes s := s.data.map Char.toNat
  bytes2str l := String.mk (l.map Char.ofNat)
  b64enc p := if p = "a|b".data.map Char.toNat then "QQ" else "Zz"
  b64dec s := if s = "QQ" then "a|b".data.map Char.toNat else "c|d".data.map Char.toNat
  stringifyEnvelope m s := m ++ "|" ++ s
  parseEnvelope t :=
    if t = "a|b" then some ("a", "b") else if t = "c|d" then some ("c", "d") else none
  jsonParse _ := none
  parseKey _ := none
  verifyEd _ _ _ := false
  sha256hex _ := ""

/-- The witness codec inverts on every string. -/
theorem witnessBuiltins_str_inv :
    ∀ s : String, witnessBuiltins.bytes2str (witnessBuiltins.str2bytes s) = s := by
  intro s
  show String.mk ((s.data.map Char.toNat).map Char.ofNat) = s
  rw [List.map_map]
  have h : s.data.map (Char.ofNat ∘ Char.toNat) = s.data := by
    conv_rhs => rw [← List.map_id s.data]
    exact List.map_congr_left (fun c _ => Char.ofNat_toNat c)
  rw [h]

/-- The witness base64 images use only alphabet bytes. -/
theorem witnessBuiltins_alpha :
    ∀ payload : Bytes, ∀ c ∈ (witnessBuiltins.b64enc payload).data,
      isB64Byte c.toNat := by
  intro payload c hc
  show isB64Byte c.toNat
  by_cases hp : payload = "a|b".data.map Char.toNat
  · have : witnessBuiltins.b64enc payload = "QQ" := by
      show (if payload = "a|b".data.map Char.toNat then "QQ" else "Zz") = "QQ"
      rw [if_pos hp]
    rw [this] at hc
    fin_cases hc <;> (rw [isB64Byte]; decide)
  · have : witnessBuiltins.b64enc payload = "Zz" := by
      show (if payload = "a|b".data.map Char.toNat then "QQ" else "Zz") = "Zz"
      rw [if_neg hp]
    rw [this] at hc
    fin_cases hc <;> (rw [isB64Byte]; decide)

/-- Witness for C9 at a concrete file and pair. -/
theorem C9_webm_embed_extract_round_trip_witness :
    witnessBuiltins.parseEnvelope (witnessBuiltins.stringifyEnvelope "a" "b") =
      some ("a", "b") ∧
    extractMetadataWebMCore witnessBuiltins
      (embedMetadataWebMBytes witnessBuiltins [7, 7, 7] "a" "b") = some ("a", "b") :=
  ⟨by decide,
    C9_webm_embed_extract_round_trip witnessBuiltins [7, 7, 7] "a" "b"
      (fun _ _ => rfl) witnessBuiltins_alpha witnessBuiltins_str_inv
      (by decide) (by decide)⟩

/-- Witness for C10: two consecutive stamps on an initially marker-free
file leave two markers and extraction returns the second envelope. -/
theorem C10_webm_restamp_accumulates_witness :
    countMatches
        ([("a", "b"), ("c", "d")].foldl
          (fun f p => embedMetadataWebMBytes witnessBuiltins f p.1 p.2) [7, 7, 7])
        webmMarker =
      countMatches [7, 7, 7] webmMarker + 2 ∧
    extractMetadataWebMCore witnessBuiltins
        ([("a", "b"), ("c", "d")].foldl
          (fun f p => embedMetadataWebMBytes witnessBuiltins f p.1 p.2) [7, 7, 7]) =
      some ("c", "d") := by
  have h := C10_webm_restamp_accumulates witnessBuiltins [7, 7, 7]
    [("a", "b"), ("c", "d")] (by simp)
    (fun _ _ => rfl) witnessBuiltins_alpha witnessBuiltins_str_inv
    (by intro p hp; fin_cases hp <;> decide)
    (by intro p hp; fin_cases hp <;> decide)
  exact ⟨h.2.1, h.2.2⟩

/-- Verification outcome (`VerificationResult` in `src/src/index.ts`). -/
inductive VerificationResult where
  | VALID : VerificationResult
  | INVALID : VerificationResult
  | INCONCLUSIVE : VerificationResult
deriving DecidableEq

/-- Embedded `{manifest, signature}` pair. -/
structure EmbeddedMetadata where
  manifest : String
  signature : String
deriving DecidableEq

/-- Split a character list on `.` keeping empty parts, as
`String.prototype.split('.')` does. -/
def splitOnDot : List Char → List (List Char)
  | [] => [[]]
  | c :: cs =>
    let rest := splitOnDot cs
    if c = '.' then [] :: rest
    else
      match rest with
      | [] => [[c]]
      | r :: rs => (c :: r) :: rs

/-- Supported container kinds. -/
inductive MediaKind where
  | mp4 : MediaKind
  | webm : MediaKind
deriving DecidableEq

/-- Model of `getMediaType` (`src/README.md` lines 797-802):
`filePath.split('.').pop()?.toLowerCase()` compared with `mp4`/`webm`
(`split` never yields an empty array, so `pop` always produces a part). -/
def getMediaType (filePath : String) : Option MediaKind :=
  let ext := ((splitOnDot filePath.data).getLastD []).map Char.toLower
  if ext = "mp4".data then some .mp4
  else if ext = "webm".data then some .webm
  else none

/-- File-system snapshot seen by one `verifyManifest` call: the video path
and contents, and the contents of whichever manifest/signature file pair
the call resolves (explicit arguments or the derived sidecar paths);
`none` means the file does not exist. -/
structure FSState where
  videoPath : String
  videoExists : Bool
  videoBytes : Bytes
  manifestSidecar : Option String
  sigSidecar : Option String

/-- Model of `extractMetadataMP4` (`src/README.md` lines 505-539) with the
envelope parse on top of the byte-level `extractMetadataMP4Bytes`; `none`
covers the `null` returns, the caught `JSON.parse` failure, and envelope
fields that are not strings (which would make every later use throw). -/
def extractMetadataMP4Model (B : Builtins) (videoExists : Bool)
    (fileBuffer : Bytes) : Option EmbeddedMetadata :=
  if !videoExists then none
  else
    match extractMetadataMP4Bytes fileBuffer with
    | none => none
    | some payload =>
      match B.parseEnvelope (B.bytes2str payload) with
      | none => none
      | some (m, s) => some ⟨m, s⟩

/-- Model of `extractMetadataWebM` (`src/README.md` lines 567-597) on top
of `extractMetadataWebMCore`. -/
def extractMetadataWebMModel (B : Builtins) (videoExists : Bool)
    (fileBuffer : Bytes) : Option EmbeddedMetadata :=
  if !videoExists then none
  else
    match extractMetadataWebMCore B fileBuffer with
    | none => none
    | some (m, s) => some ⟨m, s⟩

/-- Model of `extractMetadata` (`src/README.md` lines 827-840): dispatch on
the detected container kind. -/
def extractMetadataModel (B : Builtins) (st : FSState) : Option EmbeddedMetadata :=
  match getMediaType st.videoPath with
  | none => none
  | some .mp4 => extractMetadataMP4Model B st.videoExists st.videoBytes
  | some .webm => extractMetadataWebMModel B st.videoExists st.videoBytes

/-- JS property access `v[k]`: `none` models a thrown `TypeError`
(receiver `null`), `some none` is `undefined`, `some (some w)` a value
(primitive receivers give `undefined`, never a throw). -/
def jsProp : JSON → String → Option (Option JSON)
  | .null, _ => none
  | .obj kvs, k =>
    some (match kvs.find? (fun p => p.1 == k) with
      | some p => some p.2
      | none => none)
  | _, _ => some none

/-- JS member chain `v.k₁.k₂` (`undefined.k₂` throws). -/
def jsChain2 (v : JSON) (k₁ k₂ : String) : Option (Option JSON) :=
  match jsProp v k₁ with
  | none => none
  | some none => none
  | some (some w) => jsProp w k₂

/-- The value `manifest.provider.public_key` as consumed on line 584 of
`src/src/index.ts`: a throw on the chain, an `undefined`, or a non-string
value all make the following `Buffer.from`/`createPublicKey` call throw,
so every such case collapses to `none`. -/
def providerPublicKey (m : JSON) : Option String :=
  match jsChain2 m "provider" "public_key" with
  | some (some (.str s)) => some s
  | _ => none

/-- Resolution phase of `verifyManifest` (`src/src/index.ts` lines
529-578): embedded metadata is tried first; a missing envelope or a
failing `JSON.parse` of it falls through to the sidecar pair; missing
sidecar files or a failing sidecar read/parse produce the `INCONCLUSIVE`
results shown (messages abbreviate the dynamic `error.message` parts). -/
def resolveSource (B : Builtins) (st : FSState) :
    Except (VerificationResult × String) (JSON × String × String) :=
  let sidecar : Except (VerificationResult × String) (JSON × String × String) :=
    match st.manifestSidecar with
    | none =>
      .error (.INCONCLUSIVE, "Manifest file not found (neither embedded nor sidecar)")
    | some mc =>
      match st.sigSidecar with
      | none =>
        .error (.INCONCLUSIVE, "Signature file not found (neither embedded nor sidecar)")
      | some sc =>
        match B.jsonParse mc with
        | none => .error (.INCONCLUSIVE, "Error reading sidecar files: parse error")
        | some m => .ok (m, sc, "sidecar files")
  match extractMetadataModel B st with
  | some emb =>
    match B.jsonParse emb.manifest with
    | some m => .ok (m, emb.signature, "embedded metadata")
    | none => sidecar
  | none => sidecar

/-- Crypto phase of `verifyManifest` (`src/src/index.ts` lines 580-618):
parse the provider key (a throw is caught as `INCONCLUSIVE`), verify the
Ed25519 signature over the re-derived canonical encoding, recompute the
asset hash and compare it with `manifest.output.hash`. -/
def cryptoPhase (B : Builtins) (videoBytes : Bytes) (manifest : JSON)
    (signature source : String) : VerificationResult × String :=
  match providerPublicKey manifest with
  | none => (.INCONCLUSIVE, "Verification error: key material")
  | some pk =>
    match B.parseKey pk with
    | none => (.INCONCLUSIVE, "Verification error: key material")
    | some key =>
      if ! B.verifyEd (canonicalJSON manifest) key signature then
        (.INVALID, "Signature verification failed")
      else
        let currentHash := "sha256:" ++ B.sha256hex videoBytes
        match jsChain2 manifest "output" "hash" with
        | none => (.INCONCLUSIVE, "Verification error: output hash")
        | some hv =>
          match hv with
          | some (.str h) =>
            if h = currentHash then
              (.VALID, "Provenance verified successfully (from " ++ source ++ ")")
            else (.INVALID, "File hash mismatch - file may have been modified")
          | _ => (.INVALID, "File hash mismatch - file may have been modified")

/-- Model of `verifyManifest` (`src/src/index.ts` lines 517-619). -/
def verifyManifestModel (B : Builtins) (st : FSState) :
    VerificationResult × String :=
  if !st.videoExists then (.INCONCLUSIVE, "Video file not found")
  else
    match resolveSource B st with
    | .error r => r
    | .ok (manifest, signature, source) =>
      cryptoPhase B st.videoBytes manifest signature source

/-- Every resolution failure carries the `INCONCLUSIVE` state. -/
theorem resolveSource_error_inconclusive (B : Builtins) (st : FSState)
    (r : VerificationResult × String) (h : resolveSource B st = .error r) :
    r.1 = .INCONCLUSIVE := by
  simp only [resolveSource] at h
  repeat' split at h
  all_goals simp_all
  all_goals (cases h; rfl)

/-- With the video present, a resolution failure is the call's result. -/
theorem verifyManifestModel_err (B : Builtins) (st : FSState)
    (hv : st.videoExists = true) (r : VerificationResult × String)
    (h : resolveSource B st = .error r) :
    verifyManifestModel B st = r := by
  simp [verifyManifestModel, hv, h]

/-- With the video present, a successful resolution hands over to the
crypto phase. -/
theorem verifyManifestModel_ok (B : Builtins) (st : FSState)
    (hv : st.videoExists = true) (m : JSON) (sig src : String)
    (h : resolveSource B st = .ok (m, sig, src)) :
    verifyManifestModel B st = cryptoPhase B st.videoBytes m sig src := by
  simp [verifyManifestModel, hv, h]

/-- C7: whenever required evidence is missing — the asset file absent, or
no embedded metadata together with a missing sidecar manifest or
signature file — `verifyManifest` returns `INCONCLUSIVE`, never `VALID`
and never `INVALID`. -/
theorem C7_missing_files_inconclusive (B : Builtins) (st : FSState) :
    (st.videoExists = false →
      verifyManifestModel B st =
        (.INCONCLUSIVE, "Video file not found")) ∧
    (st.videoExists = true → extractMetadataModel B st = none →
      st.manifestSidecar = none →
      (verifyManifestModel B st).1 = .INCONCLUSIVE) ∧
    (st.videoExists = true → extractMetadataModel B st = none →
      st.sigSidecar = none →
      (verifyManifestModel B st).1 = .INCONCLUSIVE) := by
  refine ⟨?_, ?_, ?_⟩
  · intro h
    simp [verifyManifestModel, h]
  · intro hv hx hm
    have herr : resolveSource B st =
        .error (.INCONCLUSIVE, "Manifest file not found (neither embedded nor sidecar)") := by
      simp [resolveSource, hx, hm]
    rw [verifyManifestModel_err B st hv _ herr]
  · intro hv hx hs
    cases hm : st.manifestSidecar with
    | none =>
      have herr : resolveSource B st =
          .error (.INCONCLUSIVE,
            "Manifest file not found (neither embedded nor sidecar)") := by
        simp [resolveSource, hx, hm]
      rw [verifyManifestModel_err B st hv _ herr]
    | some mc =>
      have herr : resolveSource B st =
          .error (.INCONCLUSIVE,
            "Signature file not found (neither embedded nor sidecar)") := by
        simp [resolveSource, hx, hm, hs]
      rw [verifyManifestModel_err B st hv _ herr]

/-- Witness for C7 at concrete states: a missing video, and a bare `.mp4`
asset with no embedded metadata and no sidecar files. -/
theorem C7_missing_files_inconclusive_witness :
    verifyManifestModel witnessBuiltins
        ⟨"clip.mp4", false, [], none, none⟩ =
      (.INCONCLUSIVE, "Video file not found") ∧
    (verifyManifestModel witnessBuiltins
        ⟨"clip.mp4", true, [], none, none⟩).1 = .INCONCLUSIVE :=
  ⟨(C7_missing_files_inconclusive witnessBuiltins
      ⟨"clip.mp4", false, [], none, none⟩).1 rfl,
   (C7_missing_files_inconclusive witnessBuiltins
      ⟨"clip.mp4", true, [], none, none⟩).2.1 rfl (by decide) rfl⟩

/-- Inversion: a `VALID` crypto phase requires a parsed key, a passing
signature verification, and the recorded hash equal to the recomputed
one. -/
theorem cryptoPhase_valid_inversion (B : Builtins) (vb : Bytes) (m : JSON)
    (sig src : String) (h : (cryptoPhase B vb m sig src).1 = .VALID) :
    ∃ pk key, providerPublicKey m = some pk ∧ B.parseKey pk = some key ∧
      B.verifyEd (canonicalJSON m) key sig = true ∧
      jsChain2 m "output" "hash" =
        some (some (.str ("sha256:" ++ B.sha256hex vb))) := by
  cases hpk : providerPublicKey m with
  | none =>
    simp [cryptoPhase, hpk] at h
  | some pk =>
    cases hkey : B.parseKey pk with
    | none =>
      simp [cryptoPhase, hpk, hkey] at h
    | some key =>
      cases hver : B.verifyEd (canonicalJSON m) key sig with
      | false =>
        simp [cryptoPhase, hpk, hkey, hver] at h
      | true =>
        cases hchain : jsChain2 m "output" "hash" with
        | none =>
          simp [cryptoPhase, hpk, hkey, hver, hchain] at h
        | some hv =>
          cases hv with
          | none =>
            simp [cryptoPhase, hpk, hkey, hver, hchain] at h
          | some j =>
            cases j with
            | str hs =>
              by_cases heq : hs = "sha256:" ++ B.sha256hex vb
              · exact ⟨pk, key, rfl, hkey, hver, by rw [heq]⟩
              · simp [cryptoPhase, hpk, hkey, hver, hchain, heq] at h
            | null =>
              simp [cryptoPhase, hpk, hkey, hver, hchain] at h
            | bool b =>
              simp [cryptoPhase, hpk, hkey, hver, hchain] at h
            | num n =>
              simp [cryptoPhase, hpk, hkey, hver, hchain] at h
            | arr xs =>
              simp [cryptoPhase, hpk, hkey, hver, hchain] at h
            | obj kvs =>
              simp [cryptoPhase, hpk, hkey, hver, hchain] at h

/-- C2 counterexample to the claim as stated: a state in which the asset
is present, the manifest resolves and parses, signature verification does
not fail (the verifier accepts every input), and the recorded output hash
equals the recomputed one — so the claim's ordered transitions end in
"otherwise → VALID" — yet `verifyManifest` returns `INCONCLUSIVE`,
because `createPublicKey` throws on the provider key and the exception is
caught as a verification error. -/
def c2Manifest : JSON :=
  JSON.obj [("provider", JSON.obj [("public_key", JSON.str "PK")]),
            ("output", JSON.obj [("hash", JSON.str "sha256:h")])]

/-- Builtins for the C2 counterexample: the manifest text `M` parses to
`c2Manifest`, every signature verifies, the asset hashes to `h`, but key
material never parses (`createPublicKey` throws). -/
def c2Builtins : Builtins where
  str2bytes s := s.data.map Char.toNat
  bytes2str l := String.mk (l.map Char.ofNat)
  b64enc _ := "QQ"
  b64dec _ := []
  stringifyEnvelope m s := m ++ "|" ++ s
  parseEnvelope _ := none
  jsonParse t := if t = "M" then some c2Manifest else none
  parseKey _ := none
  verifyEd _ _ _ := true
  sha256hex _ := "h"

/-- State for the C2 counterexample: video present, no embedded metadata
(unsupported extension), sidecar pair present. -/
def c2State : FSState where
  videoPath := "v.dat"
  videoExists := true
  videoBytes := []
  manifestSidecar := some "M"
  sigSidecar := some "S"

/-- C2 counterexample theorem: the asset is present and the manifest pair
resolves and parses, so by the claim's ordered transitions the outcome
must be `INVALID` (a failing check) or `VALID` (otherwise) — but the
result is `INCONCLUSIVE`. -/
theorem C2_malformed_key_not_valid_counterexample :
    c2State.videoExists = true ∧
    resolveSource c2Builtins c2State = .ok (c2Manifest, "S", "sidecar files") ∧
    jsChain2 c2Manifest "output" "hash" =
      some (some (JSON.str ("sha256:" ++ c2Builtins.sha256hex c2State.videoBytes))) ∧
    (verifyManifestModel c2Builtins c2State).1 = .INCONCLUSIVE ∧
    (verifyManifestModel c2Builtins c2State).1 ≠ .VALID ∧
    (verifyManifestModel c2Builtins c2State).1 ≠ .INVALID := by
  refine ⟨rfl, rfl, rfl, rfl, by decide, by decide⟩

/-- C2 (amended): `verifyManifest` returns `VALID` only when the Ed25519
signature verifies over the re-derived canonical encoding of the manifest
and the recomputed asset hash equals `manifest.output.hash`.  The checks
short-circuit in order: asset absent → `INCONCLUSIVE`; no resolvable or
parsable manifest/signature source → `INCONCLUSIVE`; an exception in the
crypto phase (missing or malformed key material) → `INCONCLUSIVE`;
signature verification failure → `INVALID`; hash mismatch → `INVALID`;
otherwise `VALID`. -/
theorem C2_verify_state_machine_amended (B : Builtins) (st : FSState) :
    (st.videoExists = false →
      verifyManifestModel B st = (.INCONCLUSIVE, "Video file not found")) ∧
    (∀ r, st.videoExists = true → resolveSource B st = .error r →
      verifyManifestModel B st = r ∧ r.1 = .INCONCLUSIVE) ∧
    (∀ m sig src, st.videoExists = true →
      resolveSource B st = .ok (m, sig, src) →
      (providerPublicKey m = none →
        (verifyManifestModel B st).1 = .INCONCLUSIVE) ∧
      (∀ pk, providerPublicKey m = some pk → B.parseKey pk = none →
        (verifyManifestModel B st).1 = .INCONCLUSIVE) ∧
      (∀ pk key, providerPublicKey m = some pk → B.parseKey pk = some key →
        B.verifyEd (canonicalJSON m) key sig = false →
        verifyManifestModel B st = (.INVALID, "Signature verification failed")) ∧
      (∀ pk key, providerPublicKey m = some pk → B.parseKey pk = some key →
        B.verifyEd (canonicalJSON m) key sig = true →
        jsChain2 m "output" "hash" =
          some (some (.str ("sha256:" ++ B.sha256hex st.videoBytes))) →
        (verifyManifestModel B st).1 = .VALID) ∧
      (∀ pk key hv, providerPublicKey m = some pk → B.parseKey pk = some key →
        B.verifyEd (canonicalJSON m) key sig = true →
        jsChain2 m "output" "hash" = some hv →
        hv ≠ some (.str ("sha256:" ++ B.sha256hex st.videoBytes)) →
        verifyManifestModel B st =
          (.INVALID, "File hash mismatch - file may have been modified"))) ∧
    ((verifyManifestModel B st).1 = .VALID →
      st.videoExists = true ∧
      ∃ m sig src pk key, resolveSource B st = .ok (m, sig, src) ∧
        providerPublicKey m = some pk ∧ B.parseKey pk = some key ∧
        B.verifyEd (canonicalJSON m) key sig = true ∧
        jsChain2 m "output" "hash" =
          some (some (.str ("sha256:" ++ B.sha256hex st.videoBytes)))) := by
  refine ⟨?_, ?_, ?_, ?_⟩
  · intro h
    simp [verifyManifestModel, h]
  · intro r hv herr
    exact ⟨verifyManifestModel_err B st hv r herr,
      resolveSource_error_inconclusive B st r herr⟩
  · intro m sig src hv hok
    rw [verifyManifestModel_ok B st hv m sig src hok]
    refine ⟨?_, ?_, ?_, ?_, ?_⟩
    · intro hpk
      simp [cryptoPhase, hpk]
    · intro pk hpk hkey
      simp [cryptoPhase, hpk, hkey]
    · intro pk key hpk hkey hver
      simp [cryptoPhase, hpk, hkey, hver]
    · intro pk key hpk hkey hver hchain
      simp [cryptoPhase, hpk, hkey, hver, hchain]
    · intro pk key hvv hpk hkey hver hchain hne
      cases hvv with
      | none => simp [cryptoPhase, hpk, hkey, hver, hchain]
      | some j =>
        cases j with
        | str hs =>
          have hne' : hs ≠ "sha256:" ++ B.sha256hex st.videoBytes := by
            intro hq
            exact hne (by rw [hq])
          simp [cryptoPhase, hpk, hkey, hver, hchain, hne']
        | null => simp [cryptoPhase, hpk, hkey, hver, hchain]
        | bool b => simp [cryptoPhase, hpk, hkey, hver, hchain]
        | num n => simp [cryptoPhase, hpk, hkey, hver, hchain]
        | arr xs => simp [cryptoPhase, hpk, hkey, hver, hchain]
        | obj kvs => simp [cryptoPhase, hpk, hkey, hver, hchain]
  · intro hVAL
    cases hv : st.videoExists with
    | false =>
      rw [verifyManifestModel] at hVAL
      simp [hv] at hVAL
    | true =>
      refine ⟨rfl, ?_⟩
      cases hres : resolveSource B st with
      | error r =>
        rw [verifyManifestModel_err B st hv r hres] at hVAL
        have := resolveSource_error_inconclusive B st r hres
        rw [this] at hVAL
        exact absurd hVAL (by simp)
      | ok triple =>
        obtain ⟨m, sig, src⟩ := triple
        rw [verifyManifestModel_ok B st hv m sig src hres] at hVAL
        obtain ⟨pk, key, hpk, hkey, hver, hchain⟩ :=
          cryptoPhase_valid_inversion B st.videoBytes m sig src hVAL
        exact ⟨m, sig, src, pk, key, rfl, hpk, hkey, hver, hchain⟩

/-- Builtins for the C2 witness: as `c2Builtins` but the provider key
parses, so the happy path reaches `VALID`. -/
def c2wBuiltins : Builtins where
  str2bytes s := s.data.map Char.toNat
  bytes2str l := String.mk (l.map Char.ofNat)
  b64enc _ := "QQ"
  b64dec _ := []
  stringifyEnvelope m s := m ++ "|" ++ s
  parseEnvelope _ := none
  jsonParse t := if t = "M" then some c2Manifest else none
  parseKey k := if k = "PK" then some "K" else none
  verifyEd _ _ _ := true
  sha256hex _ := "h"

/-- Witness for the amended C2: with everything in order, the sidecar pair
resolves and verification ends `VALID`. -/
theorem C2_verify_state_machine_amended_witness :
    resolveSource c2wBuiltins c2State = .ok (c2Manifest, "S", "sidecar files") ∧
    (verifyManifestModel c2wBuiltins c2State).1 = .VALID :=
  ⟨rfl,
   ((C2_verify_state_machine_amended c2wBuiltins c2State).2.2.1 c2Manifest "S"
      "sidecar files" rfl rfl).2.2.2.1 "PK" "K" (by decide) (by decide) (by decide)
      rfl⟩

/-- C8 counterexample manifest: well-formed but with a provider key that
`createPublicKey` rejects. -/
def c8Manifest : JSON :=
  JSON.obj [("provider", JSON.obj [("public_key", JSON.str "PK8")]),
            ("output", JSON.obj [("hash", JSON.str "sha256:z")])]

/-- Builtins for the C8 counterexample: the manifest parses, every
signature verifies, the hash matches, but no key material parses. -/
def c8Builtins : Builtins where
  str2bytes s := s.data.map Char.toNat
  bytes2str l := String.mk (l.map Char.ofNat)
  b64enc _ := "QQ"
  b64dec _ := []
  stringifyEnvelope m s := m ++ "|" ++ s
  parseEnvelope _ := none
  jsonParse t := if t = "M8" then some c8Manifest else none
  parseKey _ := none
  verifyEd _ _ _ := true
  sha256hex _ := "z"

/-- Builtins for the C8 witness signature-mismatch branch: key material
parses but the signature never verifies. -/
def c8wBuiltins : Builtins where
  str2bytes s := s.data.map Char.toNat
  bytes2str l := String.mk (l.map Char.ofNat)
  b64enc _ := "QQ"
  b64dec _ := []
  stringifyEnvelope m s := m ++ "|" ++ s
  parseEnvelope _ := none
  jsonParse t := if t = "M8" then some c8Manifest else none
  parseKey k := if k = "PK8" then some "K8" else none
  verifyEd _ _ _ := false
  sha256hex _ := "z"

/-- State for the C8 counterexample and witness. -/
def c8State : FSState where
  videoPath := "w.dat"
  videoExists := true
  videoBytes := [1]
  manifestSidecar := some "M8"
  sigSidecar := some "S8"

/-- C8 counterexample to the claim as stated: malformed key material (a
`provider.public_key` that does not decode to a valid Ed25519 key) is a
cryptographic failure, yet `verifyManifest` reports `INCONCLUSIVE` — the
thrown `createPublicKey` exception is caught as a verification error —
not `INVALID` as the claim requires. -/
theorem C8_malformed_key_counterexample :
    c8Builtins.parseKey "PK8" = none ∧
    resolveSource c8Builtins c8State = .ok (c8Manifest, "S8", "sidecar files") ∧
    verifyManifestModel c8Builtins c8State =
      (.INCONCLUSIVE, "Verification error: key material") ∧
    (verifyManifestModel c8Builtins c8State).1 ≠ .INVALID := by
  refine ⟨rfl, rfl, rfl, by decide⟩

/-- C8 (amended): during verification a signature mismatch surfaces as
`INVALID`; malformed key material throws inside the crypto phase and the
caught exception surfaces as `INCONCLUSIVE` with a verification-error
message — reported, not silently ignored, but not `INVALID`. -/
theorem C8_crypto_outcomes_amended (B : Builtins) (st : FSState) :
    (∀ m sig src pk key, st.videoExists = true →
      resolveSource B st = .ok (m, sig, src) →
      providerPublicKey m = some pk → B.parseKey pk = some key →
      B.verifyEd (canonicalJSON m) key sig = false →
      verifyManifestModel B st = (.INVALID, "Signature verification failed")) ∧
    (∀ m sig src pk, st.videoExists = true →
      resolveSource B st = .ok (m, sig, src) →
      providerPublicKey m = some pk → B.parseKey pk = none →
      verifyManifestModel B st =
        (.INCONCLUSIVE, "Verification error: key material")) := by
  constructor
  · intro m sig src pk key hv hok hpk hkey hver
    rw [verifyManifestModel_ok B st hv m sig src hok]
    simp [cryptoPhase, hpk, hkey, hver]
  · intro m sig src pk hv hok hpk hkey
    rw [verifyManifestModel_ok B st hv m sig src hok]
    simp [cryptoPhase, hpk, hkey]

/-- Witness for the amended C8: the signature-mismatch branch yields
`INVALID` and the malformed-key branch yields `INCONCLUSIVE`. -/
theorem C8_crypto_outcomes_amended_witness :
    verifyManifestModel c8wBuiltins c8State =
      (.INVALID, "Signature verification failed") ∧
    verifyManifestModel c8Builtins c8State =
      (.INCONCLUSIVE, "Verification error: key material") :=
  ⟨(C8_crypto_outcomes_amended c8wBuiltins c8State).1 c8Manifest "S8"
      "sidecar files" "PK8" "K8" rfl rfl (by decide) (by decide) (by decide),
   (C8_crypto_outcomes_amended c8Builtins c8State).2 c8Manifest "S8"
      "sidecar files" "PK8" rfl rfl (by decide) (by decide)⟩
